import Mathlib

/-!
Verification of the systemd-networkd renderer (`cloudinit/net/networkd.py`).

The Python source is shallowly embedded: each Python function or method is
translated into a Lean definition of the same name (up to Lean naming rules),
strings stay strings, Python dicts with a fixed key set become structures or
association lists, and the fallible rendering path returns `Except`.
-/

namespace Networkd

/-! ## Section Builder (`CfgParser`) -/

/-- Helper for `dedupKeepFirst`: drop every element already seen. -/
def dedupKeepFirstAux (seen : List String) : List String → List String
  | [] => []
  | x :: xs =>
    if x ∈ seen then dedupKeepFirstAux seen xs
    else x :: dedupKeepFirstAux (seen ++ [x]) xs

/-- First-occurrence deduplication, as performed by `list(dict.fromkeys(lst))`
in `CfgParser.update_section` and `CfgParser.update_route_section`. -/
def dedupKeepFirst (l : List String) : List String := dedupKeepFirstAux [] l

/-- Lexicographic comparison of character lists by code point, the order
Python uses to compare strings. -/
def listLeB : List Char → List Char → Bool
  | [], _ => true
  | _ :: _, [] => false
  | a :: as, b :: bs =>
    if a < b then true
    else if b < a then false
    else listLeB as bs

/-- Python string comparison: lexicographic by code point. -/
def strLeB (s t : String) : Bool := listLeB s.data t.data

/-- `strLeB` as a relation. -/
def strLe (s t : String) : Prop := strLeB s t = true

instance : DecidableRel strLe :=
  fun s t => inferInstanceAs (Decidable (strLeB s t = true))

theorem listLeB_refl : ∀ l : List Char, listLeB l l = true
  | [] => rfl
  | a :: as => by
    rw [listLeB, if_neg (lt_irrefl a), if_neg (lt_irrefl a)]
    exact listLeB_refl as

theorem listLeB_total : ∀ l₁ l₂ : List Char,
    listLeB l₁ l₂ = true ∨ listLeB l₂ l₁ = true
  | [], _ => .inl rfl
  | _ :: _, [] => .inr rfl
  | a :: as, b :: bs => by
    rcases lt_trichotomy a b with h | h | h
    · left; rw [listLeB, if_pos h]
    · subst h
      rw [listLeB, if_neg (lt_irrefl a), if_neg (lt_irrefl a),
        listLeB, if_neg (lt_irrefl a), if_neg (lt_irrefl a)]
      exact listLeB_total as bs
    · right; rw [listLeB, if_pos h]

theorem listLeB_trans : ∀ {l₁ l₂ l₃ : List Char},
    listLeB l₁ l₂ = true → listLeB l₂ l₃ = true → listLeB l₁ l₃ = true := by
  intro l₁
  induction l₁ with
  | nil => intro l₂ l₃ _ _; rfl
  | cons a as ih =>
    intro l₂ l₃ h₁₂ h₂₃
    match l₂, l₃ with
    | [], _ => exact absurd h₁₂ (by rw [listLeB]; simp)
    | _ :: _, [] => exact absurd h₂₃ (by rw [listLeB]; simp)
    | b :: bs, c :: cs =>
      rw [listLeB] at h₁₂ h₂₃ ⊢
      by_cases hab : a < b
      · rw [if_pos hab] at h₁₂
        by_cases hbc : b < c
        · rw [if_pos (lt_trans hab hbc)]
        · rw [if_neg hbc] at h₂₃
          by_cases hcb : c < b
          · rw [if_pos hcb] at h₂₃; exact absurd h₂₃ (by simp)
          · have : b = c := le_antisymm (not_lt.1 hcb) (not_lt.1 hbc)
            rw [if_pos (this ▸ hab)]
      · rw [if_neg hab] at h₁₂
        by_cases hba : b < a
        · rw [if_pos hba] at h₁₂; exact absurd h₁₂ (by simp)
        · rw [if_neg hba] at h₁₂
          have hab' : a = b := le_antisymm (not_lt.1 hba) (not_lt.1 hab)
          subst hab'
          by_cases hac : a < c
          · rw [if_pos hac]
          · rw [if_neg hac] at h₂₃ ⊢
            by_cases hca : c < a
            · rw [if_pos hca] at h₂₃; exact absurd h₂₃ (by simp)
            · rw [if_neg hca] at h₂₃ ⊢
              exact ih h₁₂ h₂₃

theorem listLeB_antisymm : ∀ {l₁ l₂ : List Char},
    listLeB l₁ l₂ = true → listLeB l₂ l₁ = true → l₁ = l₂ := by
  intro l₁
  induction l₁ with
  | nil =>
    intro l₂ _ h₂₁
    match l₂ with
    | [] => rfl
    | _ :: _ => exact absurd h₂₁ (by rw [listLeB]; simp)
  | cons a as ih =>
    intro l₂ h₁₂ h₂₁
    match l₂ with
    | [] => exact absurd h₁₂ (by rw [listLeB]; simp)
    | b :: bs =>
      rw [listLeB] at h₁₂ h₂₁
      by_cases hab : a < b
      · rw [if_neg (lt_asymm hab), if_pos hab] at h₂₁
        exact absurd h₂₁ (by simp)
      · rw [if_neg hab] at h₁₂
        by_cases hba : b < a
        · rw [if_pos hba] at h₁₂; exact absurd h₁₂ (by simp)
        · rw [if_neg hba] at h₁₂
          rw [if_neg hba, if_neg hab] at h₂₁
          have : a = b := le_antisymm (not_lt.1 hba) (not_lt.1 hab)
          rw [this, ih h₁₂ h₂₁]

theorem strLe_refl (s : String) : strLe s s := listLeB_refl s.data

theorem strLe_total (s t : String) : strLe s t ∨ strLe t s :=
  listLeB_total s.data t.data

theorem strLe_trans {s t u : String} (h₁ : strLe s t) (h₂ : strLe t u) :
    strLe s u := listLeB_trans h₁ h₂

theorem strLe_antisymm {s t : String} (h₁ : strLe s t) (h₂ : strLe t s) :
    s = t := by
  cases s with
  | mk d₁ =>
    cases t with
    | mk d₂ => exact congrArg String.mk (listLeB_antisymm h₁ h₂)

instance : IsTotal String strLe := ⟨strLe_total⟩

instance : IsTrans String strLe := ⟨fun _ _ _ => strLe_trans⟩

instance : IsAntisymm String strLe := ⟨fun _ _ => strLe_antisymm⟩

/-- `list.sort()` on a list of strings: Python sorts strings lexicographically
by code point, which is the order `strLe`. -/
def sortStr (l : List String) : List String :=
  List.insertionSort strLe l

/-- The net effect of one `append` + `list(dict.fromkeys(...))` + `.sort()`
step on one section line list, as done by `update_section` and (per route id)
by `update_route_section`. -/
def addLine (l : List String) (s : String) : List String :=
  sortStr (dedupKeepFirst (l ++ [s]))

/-- The `f"{key}={val}"` line format. -/
def kvLine (key val : String) : String := key ++ "=" ++ val

/-- The list-valued keys of `CfgParser.conf_dict` (all keys except `Route`,
whose value is a dict from route id to line list). -/
def flatSections : List String :=
  ["Match", "Link", "Network", "DHCPv4", "DHCPv6", "Address", "NetDev",
   "VLAN", "Bond"]

/-- `CfgParser.conf_dict`: the list-valued sections are kept as a function
from section name to line list (meaningful on `flatSections`, initialised to
`[]` everywhere), and the dict-valued `Route` section as an association list
from route id to line list, in insertion order (Python dicts preserve
insertion order; `get_final_conf` sorts the ids during serialization). -/
structure CfgParser where
  flat : String → List String
  route : List (String × List String)

/-- `CfgParser.__init__`: every section starts empty. -/
def CfgParser.init : CfgParser := ⟨fun _ => [], []⟩

/-- `CfgParser.update_section`: the loop `for k in self.conf_dict.keys(): if
k == sec:` matches `sec` against the fixed key set; a match appends
`f"{key}={val}"`, deduplicates and sorts.  An unknown section name is a
silent no-op.  (Matching `sec = "Route"` would call `.append` on a dict and
raise `AttributeError` in the source; the renderer never does this, and the
model restricts the match to the list-valued keys.) -/
def CfgParser.update_section (c : CfgParser) (sec key val : String) : CfgParser :=
  if flatSections.contains sec then
    { c with flat := fun k => if k = sec then addLine (c.flat sec) (kvLine key val) else c.flat k }
  else c

/-- One `update_route_section` step on the `Route` association list: create
the id on first use, then append + dedup + sort its line list. -/
def updRoute (r : List (String × List String)) (rid line : String) :
    List (String × List String) :=
  if (r.map Prod.fst).contains rid then
    r.map (fun p => if p.1 = rid then (p.1, addLine p.2 line) else p)
  else
    r ++ [(rid, addLine [] line)]

/-- `CfgParser.update_route_section`: the only dict-valued key is `Route`,
so only `sec = "Route"` has any effect.  (A list-valued `sec` would raise
`TypeError` on `self.conf_dict[k][rid]` in the source; the renderer only
ever passes the literal `"Route"`.) -/
def CfgParser.update_route_section (c : CfgParser) (sec rid key val : String) :
    CfgParser :=
  if sec = "Route" then { c with route := updRoute c.route rid (kvLine key val) } else c

/-! ### Basic properties of `addLine` -/

theorem mem_dedupKeepFirstAux {x : String} : ∀ {l seen : List String},
    x ∈ dedupKeepFirstAux seen l ↔ x ∈ l ∧ x ∉ seen := by
  intro l
  induction l with
  | nil => intro seen; simp [dedupKeepFirstAux]
  | cons a t ih =>
    intro seen
    rw [dedupKeepFirstAux]
    by_cases ha : a ∈ seen
    · rw [if_pos ha, ih]
      constructor
      · exact fun ⟨h₁, h₂⟩ => ⟨List.mem_cons_of_mem _ h₁, h₂⟩
      · rintro ⟨h₁, h₂⟩
        rcases List.mem_cons.1 h₁ with h | h
        · exact absurd (h ▸ ha) h₂
        · exact ⟨h, h₂⟩
    · rw [if_neg ha]
      by_cases hx : x = a
      · subst hx
        simp [ha]
      · simp only [List.mem_cons, hx, false_or]
        rw [ih]
        simp [hx]

theorem mem_dedupKeepFirst {x : String} {l : List String} :
    x ∈ dedupKeepFirst l ↔ x ∈ l := by
  unfold dedupKeepFirst
  rw [mem_dedupKeepFirstAux]
  simp

theorem nodup_dedupKeepFirstAux : ∀ (l seen : List String),
    (dedupKeepFirstAux seen l).Nodup := by
  intro l
  induction l with
  | nil => intro seen; simp [dedupKeepFirstAux]
  | cons a t ih =>
    intro seen
    rw [dedupKeepFirstAux]
    split
    · exact ih _
    · refine List.nodup_cons.2 ⟨fun hmem => ?_, ih _⟩
      rw [mem_dedupKeepFirstAux] at hmem
      exact hmem.2 (by simp)

theorem nodup_dedupKeepFirst (l : List String) : (dedupKeepFirst l).Nodup :=
  nodup_dedupKeepFirstAux l []

theorem sortStr_perm (l : List String) : List.Perm (sortStr l) l :=
  List.perm_insertionSort _ l

theorem sortStr_sorted (l : List String) : (sortStr l).Sorted strLe :=
  List.sorted_insertionSort _ l

theorem mem_addLine {x : String} {l : List String} {s : String} :
    x ∈ addLine l s ↔ x ∈ l ∨ x = s := by
  unfold addLine
  rw [(sortStr_perm _).mem_iff, mem_dedupKeepFirst]
  simp

theorem addLine_sorted (l : List String) (s : String) :
    (addLine l s).Sorted strLe := sortStr_sorted _

theorem addLine_nodup (l : List String) (s : String) : (addLine l s).Nodup :=
  ((sortStr_perm _).nodup_iff).2 (nodup_dedupKeepFirst _)

/-- Two sorted duplicate-free string lists with the same members are equal. -/
theorem sorted_nodup_ext {l₁ l₂ : List String}
    (s₁ : l₁.Sorted strLe) (s₂ : l₂.Sorted strLe)
    (n₁ : l₁.Nodup) (n₂ : l₂.Nodup) (h : ∀ x, x ∈ l₁ ↔ x ∈ l₂) : l₁ = l₂ :=
  List.eq_of_perm_of_sorted ((List.perm_ext_iff_of_nodup n₁ n₂).2 h) s₁ s₂

theorem addLine_comm (l : List String) (a b : String) :
    addLine (addLine l a) b = addLine (addLine l b) a := by
  refine sorted_nodup_ext (addLine_sorted _ _) (addLine_sorted _ _)
    (addLine_nodup _ _) (addLine_nodup _ _) (fun x => ?_)
  simp only [mem_addLine]
  tauto

theorem addLine_idem (l : List String) (a : String) :
    addLine (addLine l a) a = addLine l a := by
  refine sorted_nodup_ext (addLine_sorted _ _) (addLine_sorted _ _)
    (addLine_nodup _ _) (addLine_nodup _ _) (fun x => ?_)
  simp only [mem_addLine]
  tauto

/-! ### Sorting an association list by key (`for n in sorted(v)` on a dict) -/

/-- Key order on association-list entries. -/
def keyLe {β : Type} (p q : String × β) : Prop := strLe p.1 q.1

instance {β : Type} : DecidableRel (@keyLe β) :=
  fun p q => inferInstanceAs (Decidable (strLeB p.1 q.1 = true))

instance {β : Type} : IsTotal (String × β) keyLe :=
  ⟨fun a b => strLe_total a.1 b.1⟩

instance {β : Type} : IsTrans (String × β) keyLe :=
  ⟨fun _ _ _ h₁ h₂ => strLe_trans h₁ h₂⟩

/-- Iterating a dict in sorted key order, modelled as a stable sort of the
association list by key. -/
def keySort {β : Type} (l : List (String × β)) : List (String × β) :=
  List.insertionSort keyLe l

theorem keySort_perm {β : Type} (l : List (String × β)) :
    List.Perm (keySort l) l :=
  List.perm_insertionSort _ l

theorem keySort_sorted {β : Type} (l : List (String × β)) :
    (keySort l).Sorted keyLe :=
  List.sorted_insertionSort _ l

/-- Two key-sorted association lists that are permutations of each other and
have duplicate-free keys are equal. -/
theorem eq_of_perm_of_keySorted {β : Type} : ∀ {l₁ l₂ : List (String × β)},
    List.Perm l₁ l₂ → l₁.Sorted keyLe → l₂.Sorted keyLe →
    (l₁.map Prod.fst).Nodup → l₁ = l₂
  | [], l₂, hp, _, _, _ => (hp.nil_eq).symm ▸ rfl
  | a :: t₁, l₂, hp, hs₁, hs₂, hn₁ => by
    match l₂, hp with
    | [], hp => exact absurd hp.symm.nil_eq (by simp)
    | b :: t₂, hp =>
      rcases List.sorted_cons.1 hs₁ with ⟨ha₁, hs₁t⟩
      rcases List.sorted_cons.1 hs₂ with ⟨hb₂, hs₂t⟩
      by_cases hab : a = b
      · subst hab
        have := eq_of_perm_of_keySorted hp.cons_inv hs₁t hs₂t
          (by simpa using (List.nodup_cons.1 (by simpa using hn₁)).2)
        rw [this]
      · exfalso
        have hbmem : b ∈ a :: t₁ := hp.mem_iff.2 (List.mem_cons_self _ _)
        have hb₁ : b ∈ t₁ := by
          rcases List.mem_cons.1 hbmem with h | h
          · exact absurd h.symm hab
          · exact h
        have hamem : a ∈ b :: t₂ := hp.mem_iff.1 (List.mem_cons_self _ _)
        have ha₂ : a ∈ t₂ := by
          rcases List.mem_cons.1 hamem with h | h
          · exact absurd h hab
          · exact h
        have h₁ : strLe a.1 b.1 := ha₁ b hb₁
        have h₂ : strLe b.1 a.1 := hb₂ a ha₂
        have hkey : a.1 = b.1 := strLe_antisymm h₁ h₂
        have := (List.nodup_cons.1 (by simpa using hn₁ : (a.1 ::
          t₁.map Prod.fst).Nodup)).1
        exact this (hkey ▸ List.mem_map_of_mem Prod.fst hb₁)

/-! ### Serialization (`CfgParser.get_final_conf`) -/

/-- `contents += ...` accumulation over a list of fragments. -/
def catStrings : List String → String
  | [] => ""
  | s :: ss => s ++ catStrings ss

/-- The body of an ordinary section: each line followed by a newline. -/
def linesText (ls : List String) : String :=
  catStrings (ls.map (fun e => e ++ "\n"))

/-- One ordinary (non-`Address`, non-`Route`) section: skipped when empty,
otherwise a header, the sorted lines, and a blank-line terminator. -/
def serializeFlat (name : String) (ls : List String) : String :=
  if ls = [] then "" else "[" ++ name ++ "]\n" ++ linesText ls ++ "\n"

/-- The `Address` section: one `[Address]` stanza per line, each followed by
a blank line.  (An empty list produces no output, matching the
`if not v: continue` skip.) -/
def serializeAddress (ls : List String) : String :=
  catStrings (ls.map (fun e => "[Address]" ++ "\n" ++ e ++ "\n\n"))

/-- The `Route` section: one `[Route]` stanza per route id, in sorted id
order, each with its sorted lines and a blank-line terminator.  (An empty
dict produces no output, matching the `if not v: continue` skip.) -/
def serializeRoute (r : List (String × List String)) : String :=
  catStrings (r.map (fun p => "[Route]" ++ "\n" ++ linesText p.2 ++ "\n"))

/-- `CfgParser.get_final_conf`.  The `normalize` call sorts every section
line list and the `Route` ids (string lists always sort without a
`TypeError`), and `for k, v in sorted(self.conf_dict.items())` visits the ten
fixed keys in lexicographic order: `Address`, `Bond`, `DHCPv4`, `DHCPv6`,
`Link`, `Match`, `NetDev`, `Network`, `Route`, `VLAN`.  The `sorted(...)`
re-sorts inside the serialization loops are idempotent after `normalize` and
are folded into the same `sortStr`. -/
def CfgParser.get_final_conf (c : CfgParser) : String :=
  serializeAddress (sortStr (c.flat "Address"))
    ++ serializeFlat "Bond" (sortStr (c.flat "Bond"))
    ++ serializeFlat "DHCPv4" (sortStr (c.flat "DHCPv4"))
    ++ serializeFlat "DHCPv6" (sortStr (c.flat "DHCPv6"))
    ++ serializeFlat "Link" (sortStr (c.flat "Link"))
    ++ serializeFlat "Match" (sortStr (c.flat "Match"))
    ++ serializeFlat "NetDev" (sortStr (c.flat "NetDev"))
    ++ serializeFlat "Network" (sortStr (c.flat "Network"))
    ++ serializeRoute (keySort (c.route.map (fun p => (p.1, sortStr p.2))))
    ++ serializeFlat "VLAN" (sortStr (c.flat "VLAN"))

/-! ### The call language for the Section Builder -/

/-- One call to the Section Builder: either `update_section` or
`update_route_section`, with the arguments the renderer passes. -/
inductive Op where
  | sec (s key val : String)
  | route (s rid key val : String)
deriving DecidableEq

/-- Apply one call. -/
def applyOp (c : CfgParser) : Op → CfgParser
  | .sec s key val => c.update_section s key val
  | .route s rid key val => c.update_route_section s rid key val

/-- Apply a sequence of calls in order. -/
def applyOps (c : CfgParser) (os : List Op) : CfgParser := os.foldl applyOp c

/-! ### Insertion-order independence of the Section Builder -/

/-- The per-entry rewrite performed by `update_route_section` on an existing
route id. -/
def updEntry (rid line : String) (p : String × List String) :
    String × List String :=
  if p.1 = rid then (p.1, addLine p.2 line) else p

theorem updRoute_eq (r : List (String × List String)) (rid line : String) :
    updRoute r rid line =
      if rid ∈ r.map Prod.fst then r.map (updEntry rid line)
      else r ++ [(rid, addLine [] line)] := by
  unfold updRoute updEntry
  split
  · rename_i h
    rw [if_pos (by simpa using h)]
  · rename_i h
    rw [if_neg (by simpa using h)]

theorem fst_updEntry (rid line : String) :
    Prod.fst ∘ updEntry rid line = Prod.fst := by
  funext p
  unfold updEntry
  by_cases h : p.1 = rid <;> simp [h]

theorem updRoute_keys (r : List (String × List String)) (rid line : String) :
    (updRoute r rid line).map Prod.fst =
      if rid ∈ r.map Prod.fst then r.map Prod.fst
      else r.map Prod.fst ++ [rid] := by
  rw [updRoute_eq]
  split
  · rw [List.map_map, fst_updEntry]
  · simp

theorem map_updEntry_of_not_mem {r : List (String × List String)} {rid : String}
    (h : rid ∉ r.map Prod.fst) (line : String) :
    r.map (updEntry rid line) = r := by
  induction r with
  | nil => rfl
  | cons a t ih =>
    simp only [List.map_cons, List.mem_cons, not_or] at h
    rw [List.map_cons, ih h.2]
    unfold updEntry
    rw [if_neg (fun hh => h.1 hh.symm)]

/-- Route-id uniqueness: the keys of the `Route` association list never
repeat (a Python dict cannot hold a key twice). -/
def routeWF (c : CfgParser) : Prop := (c.route.map Prod.fst).Nodup

theorem routeWF_applyOp {c : CfgParser} (h : routeWF c) (o : Op) :
    routeWF (applyOp c o) := by
  cases o with
  | sec s key val =>
    show routeWF (c.update_section s key val)
    unfold CfgParser.update_section
    split <;> exact h
  | route s rid key val =>
    show routeWF (c.update_route_section s rid key val)
    unfold CfgParser.update_route_section
    split
    · show ((updRoute c.route rid _).map Prod.fst).Nodup
      rw [updRoute_keys]
      split
      · exact h
      · rename_i hmem
        rw [List.nodup_append]
        refine ⟨h, List.nodup_singleton _, fun a ha hb => ?_⟩
        simp only [List.mem_singleton] at hb
        exact hmem (hb ▸ ha)
    · exact h

theorem routeWF_applyOps {c : CfgParser} (h : routeWF c) (os : List Op) :
    routeWF (applyOps c os) := by
  induction os generalizing c with
  | nil => exact h
  | cons o t ih => exact ih (routeWF_applyOp h o)

theorem routeWF_init : routeWF CfgParser.init := by
  simp [routeWF, CfgParser.init]

/-- Observational equivalence of Section Builders: equal section lists, and
`Route` entries equal up to order (the serializer sorts the route ids). -/
def cfgEquiv (c₁ c₂ : CfgParser) : Prop :=
  (∀ s, c₁.flat s = c₂.flat s) ∧ List.Perm c₁.route c₂.route

theorem cfgEquiv_refl (c : CfgParser) : cfgEquiv c c :=
  ⟨fun _ => rfl, List.Perm.refl _⟩

theorem cfgEquiv_trans {c₁ c₂ c₃ : CfgParser} (h₁ : cfgEquiv c₁ c₂)
    (h₂ : cfgEquiv c₂ c₃) : cfgEquiv c₁ c₃ :=
  ⟨fun s => (h₁.1 s).trans (h₂.1 s), h₁.2.trans h₂.2⟩

theorem updRoute_perm {r₁ r₂ : List (String × List String)}
    (hp : List.Perm r₁ r₂) (rid line : String) :
    List.Perm (updRoute r₁ rid line) (updRoute r₂ rid line) := by
  rw [updRoute_eq, updRoute_eq]
  have hm : (rid ∈ r₁.map Prod.fst) ↔ (rid ∈ r₂.map Prod.fst) :=
    (hp.map Prod.fst).mem_iff
  by_cases h : rid ∈ r₁.map Prod.fst
  · rw [if_pos h, if_pos (hm.1 h)]
    exact hp.map _
  · rw [if_neg h, if_neg (fun hh => h (hm.2 hh))]
    exact hp.append_right _

theorem cfgEquiv_applyOp {c₁ c₂ : CfgParser} (h : cfgEquiv c₁ c₂) (o : Op) :
    cfgEquiv (applyOp c₁ o) (applyOp c₂ o) := by
  obtain ⟨hf, hr⟩ := h
  cases o with
  | sec s key val =>
    show cfgEquiv (c₁.update_section s key val) (c₂.update_section s key val)
    unfold CfgParser.update_section
    split
    · refine ⟨fun k => ?_, hr⟩
      show (if k = s then addLine (c₁.flat s) _ else c₁.flat k)
        = (if k = s then addLine (c₂.flat s) _ else c₂.flat k)
      by_cases hk : k = s <;> simp [hk, hf]
    · exact ⟨hf, hr⟩
  | route s rid key val =>
    show cfgEquiv (c₁.update_route_section s rid key val)
      (c₂.update_route_section s rid key val)
    unfold CfgParser.update_route_section
    split
    · exact ⟨hf, updRoute_perm hr _ _⟩
    · exact ⟨hf, hr⟩

theorem cfgEquiv_applyOps {c₁ c₂ : CfgParser} (h : cfgEquiv c₁ c₂)
    (os : List Op) : cfgEquiv (applyOps c₁ os) (applyOps c₂ os) := by
  induction os generalizing c₁ c₂ with
  | nil => exact h
  | cons o t ih => exact ih (cfgEquiv_applyOp h o)

theorem updRoute_swap (r : List (String × List String))
    (rid₁ l₁ rid₂ l₂ : String) :
    List.Perm (updRoute (updRoute r rid₁ l₁) rid₂ l₂)
      (updRoute (updRoute r rid₂ l₂) rid₁ l₁) := by
  by_cases hrid : rid₁ = rid₂
  · subst hrid
    by_cases hm : rid₁ ∈ r.map Prod.fst
    · have h₁ : updRoute r rid₁ l₁ = r.map (updEntry rid₁ l₁) := by
        rw [updRoute_eq, if_pos hm]
      have h₂ : updRoute r rid₁ l₂ = r.map (updEntry rid₁ l₂) := by
        rw [updRoute_eq, if_pos hm]
      have hk₁ : rid₁ ∈ (r.map (updEntry rid₁ l₁)).map Prod.fst := by
        rw [List.map_map, fst_updEntry]; exact hm
      have hk₂ : rid₁ ∈ (r.map (updEntry rid₁ l₂)).map Prod.fst := by
        rw [List.map_map, fst_updEntry]; exact hm
      rw [h₁, h₂, updRoute_eq, updRoute_eq, if_pos hk₁, if_pos hk₂,
        List.map_map, List.map_map]
      have : updEntry rid₁ l₂ ∘ updEntry rid₁ l₁
          = updEntry rid₁ l₁ ∘ updEntry rid₁ l₂ := by
        funext p
        unfold updEntry
        by_cases hp : p.1 = rid₁ <;> simp [hp, addLine_comm]
      rw [this]
    · have h₁ : updRoute r rid₁ l₁ = r ++ [(rid₁, addLine [] l₁)] := by
        rw [updRoute_eq, if_neg hm]
      have h₂ : updRoute r rid₁ l₂ = r ++ [(rid₁, addLine [] l₂)] := by
        rw [updRoute_eq, if_neg hm]
      have hk₁ : rid₁ ∈ (r ++ [(rid₁, addLine [] l₁)]).map Prod.fst := by simp
      have hk₂ : rid₁ ∈ (r ++ [(rid₁, addLine [] l₂)]).map Prod.fst := by simp
      rw [h₁, h₂, updRoute_eq, updRoute_eq, if_pos hk₁, if_pos hk₂,
        List.map_append, List.map_append, map_updEntry_of_not_mem hm,
        map_updEntry_of_not_mem hm]
      simp [updEntry, addLine_comm]
  · by_cases hm₁ : rid₁ ∈ r.map Prod.fst <;>
      by_cases hm₂ : rid₂ ∈ r.map Prod.fst
    · -- both ids already present: two independent in-place maps commute
      rw [updRoute_eq r rid₁, if_pos hm₁, updRoute_eq r rid₂, if_pos hm₂,
        updRoute_eq, updRoute_eq]
      rw [if_pos (by rw [List.map_map, fst_updEntry]; exact hm₂),
        if_pos (by rw [List.map_map, fst_updEntry]; exact hm₁),
        List.map_map, List.map_map]
      have : updEntry rid₂ l₂ ∘ updEntry rid₁ l₁
          = updEntry rid₁ l₁ ∘ updEntry rid₂ l₂ := by
        funext p
        unfold updEntry
        by_cases hp₁ : p.1 = rid₁ <;> by_cases hp₂ : p.1 = rid₂ <;>
          simp_all
      rw [this]
    · -- `rid₁` present, `rid₂` fresh
      have hne : ¬rid₂ = rid₁ := fun h => hrid h.symm
      have e₁ : updRoute r rid₁ l₁ = r.map (updEntry rid₁ l₁) := by
        rw [updRoute_eq, if_pos hm₁]
      have e₂ : updRoute r rid₂ l₂ = r ++ [(rid₂, addLine [] l₂)] := by
        rw [updRoute_eq, if_neg hm₂]
      rw [e₁, e₂, updRoute_eq, updRoute_eq,
        if_neg (show rid₂ ∉ (r.map (updEntry rid₁ l₁)).map Prod.fst by
          rw [List.map_map, fst_updEntry]; exact hm₂),
        if_pos (show rid₁ ∈ (r ++ [(rid₂, addLine [] l₂)]).map Prod.fst by
          simp [hm₁]),
        List.map_append]
      have : List.map (updEntry rid₁ l₁) [(rid₂, addLine [] l₂)]
          = [(rid₂, addLine [] l₂)] := by simp [updEntry, hne]
      rw [this]
    · -- `rid₁` fresh, `rid₂` present
      have e₁ : updRoute r rid₁ l₁ = r ++ [(rid₁, addLine [] l₁)] := by
        rw [updRoute_eq, if_neg hm₁]
      have e₂ : updRoute r rid₂ l₂ = r.map (updEntry rid₂ l₂) := by
        rw [updRoute_eq, if_pos hm₂]
      rw [e₁, e₂, updRoute_eq, updRoute_eq,
        if_pos (show rid₂ ∈ (r ++ [(rid₁, addLine [] l₁)]).map Prod.fst by
          simp [hm₂]),
        if_neg (show rid₁ ∉ (r.map (updEntry rid₂ l₂)).map Prod.fst by
          rw [List.map_map, fst_updEntry]; exact hm₁),
        List.map_append]
      have : List.map (updEntry rid₂ l₂) [(rid₁, addLine [] l₁)]
          = [(rid₁, addLine [] l₁)] := by simp [updEntry, hrid]
      rw [this]
    · -- both ids fresh: two appended singletons, equal up to order
      have hne : ¬rid₂ = rid₁ := fun h => hrid h.symm
      have e₁ : updRoute r rid₁ l₁ = r ++ [(rid₁, addLine [] l₁)] := by
        rw [updRoute_eq, if_neg hm₁]
      have e₂ : updRoute r rid₂ l₂ = r ++ [(rid₂, addLine [] l₂)] := by
        rw [updRoute_eq, if_neg hm₂]
      rw [e₁, e₂, updRoute_eq, updRoute_eq,
        if_neg (show rid₂ ∉ (r ++ [(rid₁, addLine [] l₁)]).map Prod.fst by
          simp [hm₂, hne]),
        if_neg (show rid₁ ∉ (r ++ [(rid₂, addLine [] l₂)]).map Prod.fst by
          simp [hm₁, hrid]),
        List.append_assoc, List.append_assoc]
      exact List.Perm.append_left r
        (List.Perm.swap (rid₂, addLine [] l₂) (rid₁, addLine [] l₁) [])

theorem applyOp_swap (c : CfgParser) (o₁ o₂ : Op) :
    cfgEquiv (applyOp (applyOp c o₁) o₂) (applyOp (applyOp c o₂) o₁) := by
  cases o₁ with
  | sec s₁ k₁ v₁ =>
    cases o₂ with
    | sec s₂ k₂ v₂ =>
      show cfgEquiv ((c.update_section s₁ k₁ v₁).update_section s₂ k₂ v₂)
        ((c.update_section s₂ k₂ v₂).update_section s₁ k₁ v₁)
      unfold CfgParser.update_section
      by_cases h₁ : flatSections.contains s₁ = true <;>
        by_cases h₂ : flatSections.contains s₂ = true <;>
        simp only [h₁, h₂, if_true, if_false, ite_true, ite_false]
      · refine ⟨fun k => ?_, List.Perm.refl _⟩
        by_cases hs : s₁ = s₂
        · subst hs
          by_cases hk : k = s₁
          · subst hk
            simp only [if_pos rfl]
            exact addLine_comm _ _ _
          · simp only [if_neg hk]
        · have hs' : ¬s₂ = s₁ := fun h => hs h.symm
          by_cases hk₁ : k = s₁ <;> by_cases hk₂ : k = s₂
          · exact absurd (hk₁.symm.trans hk₂) hs
          · simp [hk₁, hk₂, hs, hs']
          · simp [hk₁, hk₂, hs, hs']
          · simp [hk₁, hk₂]
      · exact cfgEquiv_refl _
      · exact cfgEquiv_refl _
      · exact cfgEquiv_refl _
    | route s₂ rid₂ k₂ v₂ =>
      show cfgEquiv
        ((c.update_section s₁ k₁ v₁).update_route_section s₂ rid₂ k₂ v₂)
        ((c.update_route_section s₂ rid₂ k₂ v₂).update_section s₁ k₁ v₁)
      unfold CfgParser.update_section CfgParser.update_route_section
      by_cases h₁ : flatSections.contains s₁ = true <;>
        by_cases h₂ : s₂ = "Route" <;>
        simp only [h₁, h₂, if_true, if_false, ite_true, ite_false] <;>
        exact cfgEquiv_refl _
  | route s₁ rid₁ k₁ v₁ =>
    cases o₂ with
    | sec s₂ k₂ v₂ =>
      show cfgEquiv
        ((c.update_route_section s₁ rid₁ k₁ v₁).update_section s₂ k₂ v₂)
        ((c.update_section s₂ k₂ v₂).update_route_section s₁ rid₁ k₁ v₁)
      unfold CfgParser.update_section CfgParser.update_route_section
      by_cases h₁ : s₁ = "Route" <;>
        by_cases h₂ : flatSections.contains s₂ = true <;>
        simp only [h₁, h₂, if_true, if_false, ite_true, ite_false] <;>
        exact cfgEquiv_refl _
    | route s₂ rid₂ k₂ v₂ =>
      show cfgEquiv
        ((c.update_route_section s₁ rid₁ k₁ v₁).update_route_section s₂ rid₂ k₂ v₂)
        ((c.update_route_section s₂ rid₂ k₂ v₂).update_route_section s₁ rid₁ k₁ v₁)
      unfold CfgParser.update_route_section
      by_cases h₁ : s₁ = "Route" <;>
        by_cases h₂ : s₂ = "Route" <;>
        simp only [h₁, h₂, if_true, if_false, ite_true, ite_false]
      · exact ⟨fun _ => rfl, updRoute_swap _ _ _ _ _⟩
      · exact cfgEquiv_refl _
      · exact cfgEquiv_refl _
      · exact cfgEquiv_refl _

theorem applyOps_perm_equiv {os₁ os₂ : List Op} (h : List.Perm os₁ os₂) :
    ∀ c, cfgEquiv (applyOps c os₁) (applyOps c os₂) := by
  induction h with
  | nil => exact fun c => cfgEquiv_refl _
  | cons x h ih => exact fun c => ih (applyOp c x)
  | swap x y l => exact fun c => cfgEquiv_applyOps (applyOp_swap c y x) l
  | trans h₁ h₂ ih₁ ih₂ => exact fun c => cfgEquiv_trans (ih₁ c) (ih₂ c)

theorem get_final_conf_congr {c₁ c₂ : CfgParser} (h : cfgEquiv c₁ c₂)
    (w₁ : routeWF c₁) : c₁.get_final_conf = c₂.get_final_conf := by
  obtain ⟨hf, hr⟩ := h
  have hmap : List.Perm (c₁.route.map (fun p => (p.1, sortStr p.2)))
      (c₂.route.map (fun p => (p.1, sortStr p.2))) := hr.map _
  have hfst : Prod.fst ∘ (fun p : String × List String => (p.1, sortStr p.2))
      = Prod.fst := by funext p; rfl
  have hkeys : ((keySort (c₁.route.map (fun p => (p.1, sortStr p.2)))).map
      Prod.fst).Nodup := by
    refine ((keySort_perm _).map Prod.fst).nodup_iff.2 ?_
    rw [List.map_map, hfst]
    exact w₁
  have hroutes : keySort (c₁.route.map (fun p => (p.1, sortStr p.2)))
      = keySort (c₂.route.map (fun p => (p.1, sortStr p.2))) :=
    eq_of_perm_of_keySorted
      ((keySort_perm _).trans (hmap.trans (keySort_perm _).symm))
      (keySort_sorted _) (keySort_sorted _) hkeys
  unfold CfgParser.get_final_conf
  simp only [hf, hroutes]

/-- C1: rendering is deterministic with respect to insertion order: for every
CfgParser, permuting the order of `update_section` and `update_route_section`
calls does not change the string returned by `get_final_conf`. -/
theorem C1_insertion_order_determinism (os₁ os₂ : List Op)
    (h : List.Perm os₁ os₂) :
    (applyOps CfgParser.init os₁).get_final_conf
      = (applyOps CfgParser.init os₂).get_final_conf :=
  get_final_conf_congr (applyOps_perm_equiv h CfgParser.init)
    (routeWF_applyOps routeWF_init os₁)

theorem C1_insertion_order_determinism_witness :
    List.Perm
      [Op.route "Route" "r0" "Gateway" "10.0.0.1", Op.sec "Match" "Name" "eth0",
       Op.route "Route" "a1" "Gateway" "192.168.0.1"]
      [Op.sec "Match" "Name" "eth0", Op.route "Route" "a1" "Gateway" "192.168.0.1",
       Op.route "Route" "r0" "Gateway" "10.0.0.1"]
    ∧ (applyOps CfgParser.init
        [Op.route "Route" "r0" "Gateway" "10.0.0.1", Op.sec "Match" "Name" "eth0",
         Op.route "Route" "a1" "Gateway" "192.168.0.1"]).get_final_conf
      = (applyOps CfgParser.init
          [Op.sec "Match" "Name" "eth0", Op.route "Route" "a1" "Gateway" "192.168.0.1",
           Op.route "Route" "r0" "Gateway" "10.0.0.1"]).get_final_conf :=
  ⟨by decide, C1_insertion_order_determinism _ _ (by decide)⟩

/-! ### The uniqueness-and-sortedness invariant (C6) -/

theorem flat_inv_applyOp {c : CfgParser}
    (h : ∀ s, ((c.flat s).Sorted strLe) ∧ (c.flat s).Nodup) (o : Op) :
    ∀ s, (((applyOp c o).flat s).Sorted strLe) ∧ ((applyOp c o).flat s).Nodup := by
  cases o with
  | sec s₀ key val =>
    show ∀ s, ((c.update_section s₀ key val).flat s).Sorted strLe
      ∧ ((c.update_section s₀ key val).flat s).Nodup
    unfold CfgParser.update_section
    split
    · intro s
      show ((if s = s₀ then addLine (c.flat s₀) _ else c.flat s).Sorted strLe)
        ∧ (if s = s₀ then addLine (c.flat s₀) _ else c.flat s).Nodup
      by_cases hk : s = s₀
      · rw [if_pos hk]
        exact ⟨addLine_sorted _ _, addLine_nodup _ _⟩
      · rw [if_neg hk]
        exact h s
    · exact h
  | route s₀ rid key val =>
    show ∀ s, ((c.update_route_section s₀ rid key val).flat s).Sorted strLe
      ∧ ((c.update_route_section s₀ rid key val).flat s).Nodup
    unfold CfgParser.update_route_section
    split
    · exact h
    · exact h

theorem route_inv_applyOp {c : CfgParser}
    (h : ∀ p, p ∈ c.route → (p.2.Sorted strLe) ∧ p.2.Nodup) (o : Op) :
    ∀ p, p ∈ (applyOp c o).route → (p.2.Sorted strLe) ∧ p.2.Nodup := by
  cases o with
  | sec s₀ key val =>
    show ∀ p, p ∈ (c.update_section s₀ key val).route → _
    unfold CfgParser.update_section
    split
    · exact h
    · exact h
  | route s₀ rid key val =>
    show ∀ p, p ∈ (c.update_route_section s₀ rid key val).route → _
    unfold CfgParser.update_route_section
    split
    · intro p hp
      rw [updRoute_eq] at hp
      split at hp
      · rcases List.mem_map.1 hp with ⟨q, hq, hpq⟩
        unfold updEntry at hpq
        by_cases hqk : q.1 = rid
        · rw [if_pos hqk] at hpq
          rw [← hpq]
          exact ⟨addLine_sorted _ _, addLine_nodup _ _⟩
        · rw [if_neg hqk] at hpq
          exact hpq ▸ h q hq
      · rcases List.mem_append.1 hp with hq | hq
        · exact h p hq
        · rw [List.mem_singleton] at hq
          rw [hq]
          exact ⟨addLine_sorted _ _, addLine_nodup _ _⟩
    · exact h

theorem updRoute_idem (r : List (String × List String)) (rid line : String) :
    updRoute (updRoute r rid line) rid line = updRoute r rid line := by
  by_cases hm : rid ∈ r.map Prod.fst
  · rw [updRoute_eq r, if_pos hm, updRoute_eq,
      if_pos (show rid ∈ (r.map (updEntry rid line)).map Prod.fst by
        rw [List.map_map, fst_updEntry]; exact hm),
      List.map_map]
    have : updEntry rid line ∘ updEntry rid line = updEntry rid line := by
      funext p
      by_cases hp : p.1 = rid
      · simp [updEntry, hp, addLine_idem]
      · simp [updEntry, hp]
    rw [this]
  · rw [updRoute_eq r, if_neg hm, updRoute_eq,
      if_pos (show rid ∈ (r ++ [(rid, addLine [] line)]).map Prod.fst by simp),
      List.map_append, map_updEntry_of_not_mem hm]
    have : List.map (updEntry rid line) [(rid, addLine [] line)]
        = [(rid, addLine [] line)] := by
      simp [updEntry, addLine_idem]
    rw [this]

/-- Structure extensionality for the Section Builder. -/
theorem cfgExt {c₁ c₂ : CfgParser} (hf : c₁.flat = c₂.flat)
    (hr : c₁.route = c₂.route) : c₁ = c₂ := by
  cases c₁
  cases c₂
  cases hf
  cases hr
  rfl

/-- Re-issuing the very same builder call is a no-op on the builder state. -/
theorem applyOp_idem (c : CfgParser) (o : Op) :
    applyOp (applyOp c o) o = applyOp c o := by
  cases o with
  | sec s key val =>
    show (c.update_section s key val).update_section s key val
      = c.update_section s key val
    unfold CfgParser.update_section
    split
    · refine cfgExt (funext fun k => ?_) rfl
      by_cases hk : k = s
      · subst hk
        simp only [if_pos rfl]
        exact addLine_idem _ _
      · simp only [if_neg hk]
    · rfl
  | route s rid key val =>
    show (c.update_route_section s rid key val).update_route_section s rid key val
      = c.update_route_section s rid key val
    unfold CfgParser.update_route_section
    split
    · exact cfgExt rfl (updRoute_idem _ _ _)
    · rfl

/-- C6: after every sequence of `update_section` / `update_route_section`
calls, every section line list — and every route id line list inside the
`Route` section — is duplicate-free and lexicographically sorted, and
re-issuing any one of the calls leaves the builder state (hence the
serialized output) unchanged. -/
theorem C6_sections_sorted_nodup (os : List Op) :
    (∀ s, (((applyOps CfgParser.init os).flat s).Sorted strLe)
      ∧ ((applyOps CfgParser.init os).flat s).Nodup)
    ∧ (∀ p, p ∈ (applyOps CfgParser.init os).route →
        (p.2.Sorted strLe) ∧ p.2.Nodup)
    ∧ (∀ o : Op, applyOp (applyOps CfgParser.init os) o
        = applyOps CfgParser.init (os ++ [o])
      ∧ applyOps CfgParser.init (os ++ [o, o])
        = applyOps CfgParser.init (os ++ [o])) := by
  refine ⟨?_, ?_, ?_⟩
  · induction os using List.reverseRecOn with
    | nil => intro s; exact ⟨List.sorted_nil, List.nodup_nil⟩
    | append_singleton t o ih =>
      rw [applyOps, List.foldl_append]
      exact flat_inv_applyOp ih o
  · induction os using List.reverseRecOn with
    | nil => intro p hp; simp [applyOps, CfgParser.init] at hp
    | append_singleton t o ih =>
      rw [applyOps, List.foldl_append]
      exact route_inv_applyOp ih o
  · intro o
    constructor
    · rw [applyOps, applyOps, List.foldl_append]
      rfl
    · show applyOps CfgParser.init (os ++ [o, o]) = _
      rw [applyOps, applyOps, List.foldl_append, List.foldl_append]
      show applyOp (applyOp _ o) o = applyOp _ o
      exact applyOp_idem _ o

theorem C6_sections_sorted_nodup_witness :
    (("r0", ["Gateway=10.0.0.1"])
        ∈ (applyOps CfgParser.init
            [Op.route "Route" "r0" "Gateway" "10.0.0.1",
             Op.route "Route" "r0" "Gateway" "10.0.0.1"]).route
      ∧ ((["Gateway=10.0.0.1"] : List String).Sorted strLe)
      ∧ (["Gateway=10.0.0.1"] : List String).Nodup) :=
  ⟨by decide,
    (C6_sections_sorted_nodup
      [Op.route "Route" "r0" "Gateway" "10.0.0.1",
       Op.route "Route" "r0" "Gateway" "10.0.0.1"]).2.1
      ("r0", ["Gateway=10.0.0.1"]) (by decide)⟩

/-! ### Trailing newlines (`get_final_conf` / `create_network_file`, C5) -/

/-- `Renderer.create_network_file`: builds the unit path
`f"{nwk_dir}10-cloud-init-{link}{ext}"` and, when the serialized text ends
with a doubled newline, drops the final character (`conf[:-1]`) before the
write; the `util.write_file` / `util.chownbyname` collaborators are out of
scope, so the function returns the (path, written text) pair. -/
def create_network_file (link conf nwk_dir ext : String) : String × String :=
  (nwk_dir ++ "10-cloud-init-" ++ link ++ ext,
   if ("\n\n" : String).data.isSuffixOf conf.data then String.mk conf.data.dropLast
   else conf)

/-- At least one section of the builder is non-empty. -/
def hasNonemptySection (c : CfgParser) : Prop :=
  c.flat "Match" ≠ [] ∨ c.flat "Link" ≠ [] ∨ c.flat "Network" ≠ []
    ∨ c.flat "DHCPv4" ≠ [] ∨ c.flat "DHCPv6" ≠ [] ∨ c.flat "Address" ≠ []
    ∨ c.flat "NetDev" ≠ [] ∨ c.flat "VLAN" ≠ [] ∨ c.flat "Bond" ≠ []
    ∨ c.route ≠ []

instance (c : CfgParser) : Decidable (hasNonemptySection c) := by
  unfold hasNonemptySection
  infer_instance

/-- Either empty, or ending in a doubled newline. -/
def emptyOrEndsDouble (s : String) : Prop :=
  s.data = [] ∨ ∃ u, s.data = u ++ ['\n', '\n']

theorem emptyOrEndsDouble_append {s t : String} (hs : emptyOrEndsDouble s)
    (ht : emptyOrEndsDouble t) : emptyOrEndsDouble (s ++ t) := by
  rcases ht with ht | ⟨u, hu⟩
  · rcases hs with hs | ⟨v, hv⟩
    · left; rw [String.data_append, hs, ht]; rfl
    · right; exact ⟨v, by rw [String.data_append, hv, ht, List.append_nil]⟩
  · right
    exact ⟨s.data ++ u, by rw [String.data_append, hu, List.append_assoc]⟩

theorem linesText_ends {ls : List String} (h : ls ≠ []) :
    ∃ u, (linesText ls).data = u ++ ['\n'] := by
  induction ls with
  | nil => exact absurd rfl h
  | cons a t ih =>
    show ∃ u, ((a ++ "\n") ++ catStrings (t.map (fun e => e ++ "\n"))).data
      = u ++ ['\n']
    by_cases ht : t = []
    · subst ht
      refine ⟨a.data, ?_⟩
      show ((a ++ "\n") ++ catStrings []).data = a.data ++ ['\n']
      rw [show catStrings [] = "" from rfl]
      simp
    · obtain ⟨u, hu⟩ := ih ht
      refine ⟨(a ++ "\n").data ++ u, ?_⟩
      rw [String.data_append]
      show (a ++ "\n").data ++ (linesText t).data = _
      rw [hu, List.append_assoc]

theorem serializeFlat_endsDouble {name : String} {ls : List String}
    (h : ls ≠ []) : ∃ u, (serializeFlat name ls).data = u ++ ['\n', '\n'] := by
  obtain ⟨u, hu⟩ := linesText_ends h
  rw [serializeFlat, if_neg h]
  refine ⟨("[" ++ name ++ "]\n").data ++ u, ?_⟩
  simp only [String.data_append, hu]
  simp [List.append_assoc]

theorem catStrings_endsDouble {L : List String} (hL : L ≠ [])
    (h : ∀ s ∈ L, ∃ u, s.data = u ++ ['\n', '\n']) :
    ∃ u, (catStrings L).data = u ++ ['\n', '\n'] := by
  induction L with
  | nil => exact absurd rfl hL
  | cons a t ih =>
    show ∃ u, (a ++ catStrings t).data = u ++ ['\n', '\n']
    by_cases ht : t = []
    · subst ht
      obtain ⟨u, hu⟩ := h a (by simp)
      exact ⟨u, by rw [String.data_append, hu]; simp [catStrings]⟩
    · obtain ⟨u, hu⟩ := ih ht (fun s hs => h s (List.mem_cons_of_mem _ hs))
      exact ⟨a.data ++ u, by rw [String.data_append, hu, List.append_assoc]⟩

theorem serializeAddress_endsDouble {ls : List String} (h : ls ≠ []) :
    ∃ u, (serializeAddress ls).data = u ++ ['\n', '\n'] := by
  refine catStrings_endsDouble (by simpa using h) ?_
  intro s hs
  rcases List.mem_map.1 hs with ⟨e, _, he⟩
  refine ⟨("[Address]" ++ "\n" ++ e).data, ?_⟩
  rw [← he]
  simp [String.data_append, List.append_assoc]

theorem serializeRoute_endsDouble {r : List (String × List String)}
    (h : r ≠ []) : ∃ u, (serializeRoute r).data = u ++ ['\n', '\n'] := by
  refine catStrings_endsDouble (by simpa using h) ?_
  intro s hs
  rcases List.mem_map.1 hs with ⟨p, _, hp⟩
  have hmid : ∃ u, ("[Route]" ++ "\n" ++ linesText p.2).data = u ++ ['\n'] := by
    by_cases hl : p.2 = []
    · refine ⟨("[Route]" : String).data, ?_⟩
      rw [hl]
      simp only [String.data_append]
      simp [linesText, catStrings]
    · obtain ⟨u, hu⟩ := linesText_ends hl
      refine ⟨("[Route]" ++ "\n").data ++ u, ?_⟩
      simp only [String.data_append, hu]
      simp [List.append_assoc]
  obtain ⟨u, hu⟩ := hmid
  refine ⟨u, ?_⟩
  rw [← hp]
  rw [String.data_append, hu]
  have hn : ("\n" : String).data = ['\n'] := rfl
  rw [hn, List.append_assoc]
  rfl

theorem sortStr_ne_nil {l : List String} (h : l ≠ []) : sortStr l ≠ [] := by
  intro hc
  have hp := sortStr_perm l
  rw [hc] at hp
  exact h hp.nil_eq.symm

theorem serializeFlat_data_ne {name : String} {ls : List String}
    (h : ls ≠ []) : (serializeFlat name ls).data ≠ [] := by
  rw [serializeFlat, if_neg h]
  simp [String.data_append]

theorem serializeAddress_data_ne {ls : List String} (h : ls ≠ []) :
    (serializeAddress ls).data ≠ [] := by
  match ls, h with
  | a :: t, _ =>
    show (("[Address]" ++ "\n" ++ a ++ "\n\n") ++ catStrings _).data ≠ []
    simp [String.data_append]

theorem serializeRoute_data_ne {r : List (String × List String)}
    (h : r ≠ []) : (serializeRoute r).data ≠ [] := by
  match r, h with
  | p :: t, _ =>
    show (("[Route]" ++ "\n" ++ linesText p.2 ++ "\n") ++ catStrings _).data ≠ []
    simp [String.data_append]

theorem keySort_ne_nil {β : Type} {l : List (String × β)} (h : l ≠ []) :
    keySort l ≠ [] := by
  intro hc
  have hp := keySort_perm l
  rw [hc] at hp
  exact h hp.nil_eq.symm

theorem serializeFlat_emptyOrEndsDouble (name : String) (ls : List String) :
    emptyOrEndsDouble (serializeFlat name ls) := by
  by_cases h : ls = []
  · left; rw [serializeFlat, if_pos h]
  · right; exact serializeFlat_endsDouble h

theorem serializeAddress_emptyOrEndsDouble (ls : List String) :
    emptyOrEndsDouble (serializeAddress ls) := by
  by_cases h : ls = []
  · left; rw [h]; rfl
  · right; exact serializeAddress_endsDouble h

theorem serializeRoute_emptyOrEndsDouble (r : List (String × List String)) :
    emptyOrEndsDouble (serializeRoute r) := by
  by_cases h : r = []
  · left; rw [h]; rfl
  · right; exact serializeRoute_endsDouble h

theorem get_final_conf_emptyOrEndsDouble (c : CfgParser) :
    emptyOrEndsDouble c.get_final_conf := by
  unfold CfgParser.get_final_conf
  refine emptyOrEndsDouble_append (emptyOrEndsDouble_append
    (emptyOrEndsDouble_append (emptyOrEndsDouble_append
      (emptyOrEndsDouble_append (emptyOrEndsDouble_append
        (emptyOrEndsDouble_append (emptyOrEndsDouble_append
          (emptyOrEndsDouble_append
            (serializeAddress_emptyOrEndsDouble _)
            (serializeFlat_emptyOrEndsDouble _ _))
          (serializeFlat_emptyOrEndsDouble _ _))
        (serializeFlat_emptyOrEndsDouble _ _))
      (serializeFlat_emptyOrEndsDouble _ _))
      (serializeFlat_emptyOrEndsDouble _ _))
      (serializeFlat_emptyOrEndsDouble _ _))
      (serializeFlat_emptyOrEndsDouble _ _))
      (serializeRoute_emptyOrEndsDouble _))
    (serializeFlat_emptyOrEndsDouble _ _)

theorem get_final_conf_endsDouble {c : CfgParser} (h : hasNonemptySection c) :
    ∃ u, (c.get_final_conf).data = u ++ ['\n', '\n'] := by
  rcases get_final_conf_emptyOrEndsDouble c with hnil | hgood
  · exfalso
    unfold CfgParser.get_final_conf at hnil
    simp only [String.data_append, List.append_eq_nil] at hnil
    obtain ⟨⟨⟨⟨⟨⟨⟨⟨⟨hAddr, hBond⟩, h4⟩, h6⟩, hLink⟩, hMatch⟩, hNet⟩,
      hNetwork⟩, hRoute⟩, hVlan⟩ := hnil
    rcases h with h | h | h | h | h | h | h | h | h | h
    · exact serializeFlat_data_ne (sortStr_ne_nil h) hMatch
    · exact serializeFlat_data_ne (sortStr_ne_nil h) hLink
    · exact serializeFlat_data_ne (sortStr_ne_nil h) hNetwork
    · exact serializeFlat_data_ne (sortStr_ne_nil h) h4
    · exact serializeFlat_data_ne (sortStr_ne_nil h) h6
    · exact serializeAddress_data_ne (sortStr_ne_nil h) hAddr
    · exact serializeFlat_data_ne (sortStr_ne_nil h) hNet
    · exact serializeFlat_data_ne (sortStr_ne_nil h) hVlan
    · exact serializeFlat_data_ne (sortStr_ne_nil h) hBond
    · refine serializeRoute_data_ne (keySort_ne_nil ?_) hRoute
      simpa using h
  · exact hgood

/-- A builder holding the single line `Name=eth0` in its `Match` section. -/
def exampleMatchParser : CfgParser :=
  CfgParser.init.update_section "Match" "Name" "eth0"

/-- C5 counterexample: `get_final_conf` itself does not collapse the trailing
doubled blank line — on a builder with one non-empty section its result ends
with two newline characters, not one. -/
theorem C5_counterexample :
    exampleMatchParser.flat "Match" ≠ []
    ∧ exampleMatchParser.get_final_conf = "[Match]" ++ "\n" ++ "Name=eth0" ++ "\n\n"
    ∧ ("\n\n" : String).data.isSuffixOf
        (exampleMatchParser.get_final_conf).data = true :=
  ⟨by decide, by decide, by decide⟩

/-- C5 (amended): the serialize step `get_final_conf` returns text ending in
a doubled newline whenever some section is non-empty; the collapsing to a
single trailing newline happens in `create_network_file`, which drops exactly
the final newline character before writing. -/
theorem C5_trailing_newline_amended (c : CfgParser)
    (h : hasNonemptySection c) (link nwk_dir ext : String) :
    ∃ u, (c.get_final_conf).data = u ++ ['\n', '\n']
      ∧ ((create_network_file link c.get_final_conf nwk_dir ext).2).data
          = u ++ ['\n'] := by
  obtain ⟨u, hu⟩ := get_final_conf_endsDouble h
  refine ⟨u, hu, ?_⟩
  unfold create_network_file
  simp only
  rw [if_pos (by
    rw [List.isSuffixOf_iff_suffix]
    exact ⟨u, by rw [hu]⟩)]
  show (c.get_final_conf).data.dropLast = u ++ ['\n']
  rw [hu, show u ++ ['\n', '\n'] = (u ++ ['\n']) ++ ['\n'] by simp,
    List.dropLast_concat]

theorem C5_trailing_newline_amended_witness :
    hasNonemptySection exampleMatchParser
    ∧ ∃ u, (exampleMatchParser.get_final_conf).data = u ++ ['\n', '\n']
        ∧ ((create_network_file "eth0" exampleMatchParser.get_final_conf
            "/etc/systemd/network/" ".network").2).data = u ++ ['\n'] :=
  ⟨by decide,
    C5_trailing_newline_amended exampleMatchParser (by decide)
      "eth0" "/etc/systemd/network/" ".network"⟩

/-! ## The abstract network model consumed by the Renderer -/

/-- One route dict, the input of `parse_routes`: all keys optional.  The
`prefix` key is named `pfx` because `prefix` is a Lean keyword; it holds the
already-stringified prefix length (`network_state` derives it from the
netmask). -/
structure RouteConf where
  network : Option String
  pfx : Option String
  gateway : Option String
  metric : Option String
deriving DecidableEq

/-- One subnet dict of `iface["subnets"]`.  `pfx` models the `prefix` key. -/
structure Subnet where
  type : String
  routes : List RouteConf
  address : Option String
  pfx : Option String
  gateway : Option String
  dns_nameservers : Option (List String)
  dns_search : Option (List String)
deriving DecidableEq

/-- A truthy per-interface `dns` dict (`search` / `nameservers` keys). -/
structure DnsBlock where
  search : List String
  nameservers : List String
deriving DecidableEq

/-- One abstract interface as yielded by `ns.iter_interfaces()`.  Values the
renderer interpolates into lines are kept as strings.  `accept_ra` is `none`
when the key is absent or not a bool (`isinstance(..., bool)` guard); `dns`
is `none` when the `dns` dict is absent or falsy. -/
structure Iface where
  name : String
  type : String
  mac_address : Option String
  driver : Option String
  mtu : Option String
  optional : Bool
  accept_ra : Option Bool
  subnets : List Subnet
  dns : Option DnsBlock
deriving DecidableEq

/-! ### CIDR containment (`should_add_gateway_onlink_flag`) -/

/-- Split a character list on a separator character. -/
def splitOnChar (c : Char) : List Char → List (List Char)
  | [] => [[]]
  | x :: xs =>
    let r := splitOnChar c xs
    if x = c then [] :: r
    else
      match r with
      | [] => [[x]]
      | h :: t => (x :: h) :: t

/-- Parse a non-empty all-digit character list as a decimal numeral. -/
def parseDecimal (l : List Char) : Option Nat :=
  if l ≠ [] ∧ l.all (fun c => c.isDigit) then
    some (l.foldl (fun n c => n * 10 + (c.toNat - 48)) 0)
  else none

/-- Parse a dotted-quad IPv4 address into its 32-bit value. -/
def parseIPv4 (s : String) : Option Nat :=
  match (splitOnChar '.' s.data).map parseDecimal with
  | [some a, some b, some c, some d] =>
    if a ≤ 255 ∧ b ≤ 255 ∧ c ≤ 255 ∧ d ≤ 255 then
      some (((a * 256 + b) * 256 + c) * 256 + d)
    else none
  | _ => none

/-- Parse `addr` or `addr/plen` as an IPv4 network; a bare address gets the
host prefix length 32. -/
def parseCidr4 (s : String) : Option (Nat × Nat) :=
  match splitOnChar '/' s.data with
  | [a] => (parseIPv4 (String.mk a)).map (fun n => (n, 32))
  | [a, p] =>
    match parseIPv4 (String.mk a), parseDecimal p with
    | some n, some pl => if pl ≤ 32 then some (n, pl) else none
    | _, _ => none
  | _ => none

/-- Modelled from the spec: `should_add_gateway_onlink_flag` is defined in
`cloudinit.net` (outside the excerpted sources).  Per the spec it reports
whether the gateway address is not contained within the subnet's own network
"computed via standard CIDR containment", and address-parsing failures are
non-fatal (no flag).  Only IPv4 dotted-quad addresses are modelled, which
covers the spec's examples. -/
def should_add_gateway_onlink_flag (gateway subnet : String) : Bool :=
  match parseIPv4 gateway, parseCidr4 subnet with
  | some g, some (a, p) => !(g / 2 ^ (32 - p) == a / 2 ^ (32 - p))
  | _, _ => false

/-! ### `Renderer.parse_routes` and `Renderer.parse_subnets` -/

/-- `Renderer.parse_routes`: emit the `route_cfg_map`-mapped keys of one
route dict under the given route id, appending `/prefix` to the `network`
value when a prefix is present.  Python iterates `conf.items()` in the
dict's insertion order, which the abstract model does not carry; the model
uses the `route_cfg_map` order (gateway, network, metric).  The builder
sorts every stanza, so the serialized output does not depend on this
order. -/
def parse_routes (rid : String) (conf : RouteConf) (cfg : CfgParser) :
    CfgParser :=
  let pfx := match conf.pfx with
    | some p => "/" ++ p
    | none => ""
  let c₁ := match conf.gateway with
    | some v => cfg.update_route_section "Route" rid "Gateway" v
    | none => cfg
  let c₂ := match conf.network with
    | some v => c₁.update_route_section "Route" rid "Destination" (v ++ pfx)
    | none => c₁
  match conf.metric with
  | some v => c₂.update_route_section "Route" rid "Metric" v
  | none => c₂

/-- The DHCP-mode accumulator step of `parse_subnets`, applied to each
subnet's `type`. -/
def subnetDhcpStep (dhcp : String) (t : String) : String :=
  if t = "dhcp4" ∨ t = "dhcp" then
    if dhcp = "no" then "ipv4" else if dhcp = "ipv6" then "yes" else dhcp
  else if t = "dhcp6" then
    if dhcp = "no" then "ipv6" else if dhcp = "ipv4" then "yes" else dhcp
  else dhcp

/-- `" ".join(v)`. -/
def joinSpace : List String → String
  | [] => ""
  | [s] => s
  | s :: rest => s ++ " " ++ joinSpace rest

/-- The body of the `for e in iface.get("subnets", [])` loop of
`parse_subnets`, threading (builder, dhcp mode, route-id counter).  Subnet
routes are emitted under `r<rid>` ids; when an `address` key is present the
address (with optional `/prefix`) goes to the `Address` section, a `gateway`
goes to the `Route` section under an `a<rid>` id — with `GatewayOnLink=yes`
added when the gateway is outside the subnet — and the DNS keys go to the
`Network` section space-joined.  The inner `for k, v in e.items()` loop
visits keys in dict insertion order; the model uses the fixed order address,
gateway, dns_nameservers, dns_search (the builder sorts each section, so the
output does not depend on it). -/
def processSubnet (st : CfgParser × String × Nat) (e : Subnet) :
    CfgParser × String × Nat :=
  let cfg := st.1
  let dhcp := subnetDhcpStep st.2.1 e.type
  let rid := st.2.2
  let cr := e.routes.foldl
    (fun (q : CfgParser × Nat) i =>
      (parse_routes ("r" ++ toString q.2) i q.1, q.2 + 1))
    (cfg, rid)
  let cfg := cr.1
  let rid := cr.2
  match e.address with
  | none => (cfg, dhcp, rid)
  | some a =>
    let addr := a ++ (match e.pfx with | some p => "/" ++ p | none => "")
    let cfg := cfg.update_section "Address" "Address" addr
    let cr := match e.gateway with
      | none => (cfg, rid)
      | some g =>
        let cfg := cfg.update_route_section "Route" ("a" ++ toString rid)
          "Gateway" g
        let cfg := if should_add_gateway_onlink_flag g addr then
            cfg.update_route_section "Route" ("a" ++ toString rid)
              "GatewayOnLink" "yes"
          else cfg
        (cfg, rid + 1)
    let cfg := cr.1
    let rid := cr.2
    let cfg := match e.dns_nameservers with
      | some v => cfg.update_section "Network" "DNS" (joinSpace v)
      | none => cfg
    let cfg := match e.dns_search with
      | some v => cfg.update_section "Network" "Domains" (joinSpace v)
      | none => cfg
    (cfg, dhcp, rid)

/-- `Renderer.parse_subnets`: fold the subnet loop, then emit the
accumulated `DHCP=` mode and, when `accept-ra` is a bool, `IPv6AcceptRA=`.
Returns the mutated builder together with the returned `dhcp` string. -/
def parse_subnets (iface : Iface) (cfg : CfgParser) : CfgParser × String :=
  let st := iface.subnets.foldl processSubnet (cfg, "no", 0)
  let cfg := st.1.update_section "Network" "DHCP" st.2.1
  let cfg := match iface.accept_ra with
    | some b =>
      cfg.update_section "Network" "IPv6AcceptRA" (if b then "yes" else "no")
    | none => cfg
  (cfg, st.2.1)

/-! ### DHCP mode accumulation (C2) -/

theorem string_ext {s t : String} (h : s.data = t.data) : s = t := by
  cases s with
  | mk d₁ =>
    cases t with
    | mk d₂ => exact congrArg String.mk h

theorem string_append_assoc (s t u : String) :
    (s ++ t) ++ u = s ++ (t ++ u) :=
  string_ext (by simp only [String.data_append, List.append_assoc])

theorem update_section_flat_mem {c : CfgParser} {sec : String}
    (key val : String) (hsec : flatSections.contains sec = true) :
    kvLine key val ∈ (c.update_section sec key val).flat sec := by
  unfold CfgParser.update_section
  rw [if_pos hsec]
  show kvLine key val
    ∈ (if sec = sec then addLine (c.flat sec) (kvLine key val) else c.flat sec)
  rw [if_pos rfl]
  exact mem_addLine.2 (Or.inr rfl)

theorem update_section_flat_mem_mono {c : CfgParser} {x s : String}
    (h : x ∈ c.flat s) (sec key val : String) :
    x ∈ (c.update_section sec key val).flat s := by
  unfold CfgParser.update_section
  split
  · show x ∈ (if s = sec then addLine (c.flat sec) (kvLine key val) else c.flat s)
    by_cases hs : s = sec
    · rw [if_pos hs]
      exact mem_addLine.2 (Or.inl (hs ▸ h))
    · rw [if_neg hs]
      exact h
  · exact h

theorem processSubnet_dhcp (st : CfgParser × String × Nat) (e : Subnet) :
    (processSubnet st e).2.1 = subnetDhcpStep st.2.1 e.type := by
  rcases ha : e.address with _ | a <;>
    rcases hg : e.gateway with _ | g <;>
    rcases hn : e.dns_nameservers with _ | n <;>
    rcases hs : e.dns_search with _ | s <;>
    simp [processSubnet, ha, hg, hn, hs]

theorem foldl_processSubnet_dhcp (subs : List Subnet) :
    ∀ (cfg : CfgParser) (d : String) (rid : Nat),
      (subs.foldl processSubnet (cfg, d, rid)).2.1
        = subs.foldl (fun x e => subnetDhcpStep x e.type) d := by
  induction subs with
  | nil => intro cfg d rid; rfl
  | cons e t ih =>
    intro cfg d rid
    rw [List.foldl_cons, List.foldl_cons]
    have hp : (processSubnet (cfg, d, rid) e).2.1 = subnetDhcpStep d e.type :=
      processSubnet_dhcp (cfg, d, rid) e
    have h2 := ih (processSubnet (cfg, d, rid) e).1
      (processSubnet (cfg, d, rid) e).2.1 (processSubnet (cfg, d, rid) e).2.2
    rw [← hp]
    exact h2

/-- An interface carrying only the given subnets. -/
def subnetsOnlyIface (subs : List Subnet) : Iface :=
  { name := "eth0", type := "physical", mac_address := none, driver := none,
    mtu := none, optional := false, accept_ra := none, subnets := subs,
    dns := none }

/-- A plain DHCPv4 subnet. -/
def dhcp4Subnet : Subnet :=
  { type := "dhcp4", routes := [], address := none, pfx := none,
    gateway := none, dns_nameservers := none, dns_search := none }

/-- A plain DHCPv6 subnet. -/
def dhcp6Subnet : Subnet :=
  { type := "dhcp6", routes := [], address := none, pfx := none,
    gateway := none, dns_nameservers := none, dns_search := none }

/-- A static subnet with an address. -/
def staticSubnet : Subnet :=
  { type := "static", routes := [], address := some "192.0.2.10",
    pfx := some "24", gateway := none, dns_nameservers := none,
    dns_search := none }

/-- C2: `parse_subnets` computes the interface DHCP mode by folding over the
subnet types in order starting at `"no"` (`dhcp4`/`dhcp` promote `"no"` to
`"ipv4"`, `dhcp6` promotes `"no"` to `"ipv6"`, and mixed families give
`"yes"`), emits the result as a `DHCP=` line in the `Network` section, and
on the spec's examples yields `ipv4`, `yes` and `no` respectively. -/
theorem C2_dhcp_mode_accumulation :
    (∀ (iface : Iface) (cfg : CfgParser),
      (parse_subnets iface cfg).2
        = iface.subnets.foldl (fun d e => subnetDhcpStep d e.type) "no"
      ∧ ("DHCP=" ++ (parse_subnets iface cfg).2)
          ∈ (parse_subnets iface cfg).1.flat "Network")
    ∧ (parse_subnets (subnetsOnlyIface [dhcp4Subnet]) CfgParser.init).2 = "ipv4"
    ∧ "DHCP=ipv4"
        ∈ (parse_subnets (subnetsOnlyIface [dhcp4Subnet])
            CfgParser.init).1.flat "Network"
    ∧ (parse_subnets (subnetsOnlyIface [dhcp4Subnet, dhcp6Subnet])
        CfgParser.init).2 = "yes"
    ∧ "DHCP=yes"
        ∈ (parse_subnets (subnetsOnlyIface [dhcp4Subnet, dhcp6Subnet])
            CfgParser.init).1.flat "Network"
    ∧ (parse_subnets (subnetsOnlyIface [staticSubnet]) CfgParser.init).2 = "no"
    ∧ "DHCP=no"
        ∈ (parse_subnets (subnetsOnlyIface [staticSubnet])
            CfgParser.init).1.flat "Network" := by
  refine ⟨fun iface cfg => ⟨?_, ?_⟩, by decide, by decide, by decide,
    by decide, by decide, by decide⟩
  · show (iface.subnets.foldl processSubnet (cfg, "no", 0)).2.1 = _
    exact foldl_processSubnet_dhcp _ _ _ _
  · show ("DHCP=" ++ (parse_subnets iface cfg).2) ∈ _
    have hline : "DHCP=" ++ (parse_subnets iface cfg).2
        = kvLine "DHCP" (parse_subnets iface cfg).2 := by
      unfold kvLine
      rw [show ("DHCP" ++ "=" : String) = "DHCP=" by decide]
    rw [hline]
    show kvLine "DHCP" (parse_subnets iface cfg).2
      ∈ (parse_subnets iface cfg).1.flat "Network"
    unfold parse_subnets
    rcases hra : iface.accept_ra with _ | b <;> simp only [hra]
    · exact update_section_flat_mem _ _ (by decide)
    · exact update_section_flat_mem_mono
        (update_section_flat_mem _ _ (by decide)) _ _ _

/-! ### GatewayOnLink (C7) -/

theorem update_section_route (c : CfgParser) (sec key val : String) :
    (c.update_section sec key val).route = c.route := by
  unfold CfgParser.update_section
  split <;> rfl

theorem update_route_section_route (c : CfgParser) (rid key val : String) :
    (c.update_route_section "Route" rid key val).route
      = updRoute c.route rid (kvLine key val) := by
  unfold CfgParser.update_route_section
  rw [if_pos rfl]

/-- The stanza stored under one route id (`conf_dict["Route"][rid]`). -/
def routeVal (c : CfgParser) (rid : String) : List String :=
  ((c.route.find? (fun p => p.1 == rid)).map Prod.snd).getD []

/-- A static subnet carrying address `a/p` and gateway `g`. -/
def gwSubnet (a p g : String) : Subnet :=
  { type := "static", routes := [], address := some a, pfx := some p,
    gateway := some g, dns_nameservers := none, dns_search := none }

/-- An interface with a single static subnet carrying address `a/p` and
gateway `g`. -/
def gwIface (a p g : String) : Iface :=
  { name := "eth0", type := "physical", mac_address := none, driver := none,
    mtu := none, optional := false, accept_ra := none,
    subnets := [gwSubnet a p g], dns := none }

theorem gwIface_route (a p g : String) :
    (parse_subnets (gwIface a p g) CfgParser.init).1.route
      = [("a0",
          if should_add_gateway_onlink_flag g (a ++ ("/" ++ p)) = true
          then addLine (addLine [] (kvLine "Gateway" g))
            (kvLine "GatewayOnLink" "yes")
          else addLine [] (kvLine "Gateway" g))] := by
  have ha0 : ("a" ++ toString (0 : Nat) : String) = "a0" := by decide
  unfold parse_subnets gwIface gwSubnet
  simp only [List.foldl_cons, List.foldl_nil, processSubnet]
  simp only [update_section_route]
  by_cases hf : should_add_gateway_onlink_flag g (a ++ ("/" ++ p)) = true
  · simp [hf, ha0, update_section_route, update_route_section_route, updRoute,
      CfgParser.init]
  · rw [if_neg hf]
    simp only [Bool.not_eq_true] at hf
    simp [hf, ha0, update_section_route, update_route_section_route, updRoute,
      CfgParser.init]

/-- C7: a subnet with both address and gateway renders the gateway as a
`Route` stanza under an `a<n>` id, with `GatewayOnLink=yes` added to the
same stanza exactly when the gateway is outside the subnet's CIDR network;
the spec's two concrete examples behave as stated. -/
theorem C7_gateway_onlink_flag (a p g : String) :
    ((parse_subnets (gwIface a p g) CfgParser.init).1.route.map Prod.fst
        = ["a0"])
    ∧ kvLine "Gateway" g
        ∈ routeVal (parse_subnets (gwIface a p g) CfgParser.init).1 "a0"
    ∧ (should_add_gateway_onlink_flag g (a ++ "/" ++ p) = true →
        kvLine "GatewayOnLink" "yes"
          ∈ routeVal (parse_subnets (gwIface a p g) CfgParser.init).1 "a0")
    ∧ (should_add_gateway_onlink_flag g (a ++ "/" ++ p) = false →
        routeVal (parse_subnets (gwIface a p g) CfgParser.init).1 "a0"
          = [kvLine "Gateway" g])
    ∧ should_add_gateway_onlink_flag "198.51.100.1" "192.0.2.10/30" = true
    ∧ should_add_gateway_onlink_flag "192.0.2.1" "192.0.2.10/24" = false
    ∧ "Gateway=198.51.100.1"
        ∈ routeVal (parse_subnets (gwIface "192.0.2.10" "30" "198.51.100.1")
            CfgParser.init).1 "a0"
    ∧ "GatewayOnLink=yes"
        ∈ routeVal (parse_subnets (gwIface "192.0.2.10" "30" "198.51.100.1")
            CfgParser.init).1 "a0"
    ∧ "GatewayOnLink=yes"
        ∉ routeVal (parse_subnets (gwIface "192.0.2.10" "24" "192.0.2.1")
            CfgParser.init).1 "a0" := by
  have hassoc : a ++ "/" ++ p = a ++ ("/" ++ p) := string_append_assoc _ _ _
  have hroute := gwIface_route a p g
  refine ⟨?_, ?_, ?_, ?_, by decide, by decide, by decide, by decide, by decide⟩
  · rw [hroute]
    split <;> rfl
  · rw [routeVal, hroute]
    split
    · simp only [List.find?_cons, show (("a0" : String) == "a0") = true
        from by decide]
      exact mem_addLine.2 (Or.inl (mem_addLine.2 (Or.inr rfl)))
    · simp only [List.find?_cons, show (("a0" : String) == "a0") = true
        from by decide]
      exact mem_addLine.2 (Or.inr rfl)
  · intro hflag
    rw [hassoc] at hflag
    rw [routeVal, hroute, if_pos hflag]
    simp only [List.find?_cons, show (("a0" : String) == "a0") = true
      from by decide]
    exact mem_addLine.2 (Or.inr rfl)
  · intro hflag
    rw [hassoc] at hflag
    rw [routeVal, hroute, if_neg (by rw [hflag]; simp)]
    simp only [List.find?_cons, show (("a0" : String) == "a0") = true
      from by decide]
    rfl

theorem C7_gateway_onlink_flag_witness :
    should_add_gateway_onlink_flag "198.51.100.1"
        ("192.0.2.10" ++ "/" ++ "30") = true
    ∧ kvLine "GatewayOnLink" "yes"
        ∈ routeVal (parse_subnets (gwIface "192.0.2.10" "30" "198.51.100.1")
            CfgParser.init).1 "a0" :=
  ⟨by decide,
    (C7_gateway_onlink_flag "192.0.2.10" "30" "198.51.100.1").2.2.1
      (by decide)⟩

/-! ## The network state and the version-2 device configuration -/

/-- A `dhcp4-overrides` / `dhcp6-overrides` mapping; field `x_y` models the
external key `x-y`. -/
structure DhcpOverrides where
  use_dns : Option String
  use_domains : Option String
  use_hostname : Option String
  use_ntp : Option String
  send_hostname : Option String
  hostname : Option String
  route_metric : Option String
  use_mtu : Option String
  use_routes : Option String
deriving DecidableEq

/-- One entry of `ns.config["ethernets"]`: the keys the renderer reads.
`set_name` models `set-name`, `dhcp4_overrides` models `dhcp4-overrides`,
and so on. -/
structure Device where
  set_name : Option String
  dhcp4domain : Option String
  dhcp6domain : Option String
  dhcp4_overrides : Option DhcpOverrides
  dhcp6_overrides : Option DhcpOverrides
deriving DecidableEq

/-- One entry of `ns.config["vlans"]`. -/
structure VlanCfg where
  id : Option String
  link : Option String
  mtu : Option String
  macaddress : Option String
deriving DecidableEq

/-- The bond tunables the renderer translates; field `x_y` models the
external key `x-y`.  `arp_ip_target` is kept as a string list; the source
wraps a single string into a one-element list before joining. -/
structure BondParams where
  mode : Option String
  mii_monitor_interval : Option String
  updelay : Option String
  downdelay : Option String
  arp_interval : Option String
  arp_ip_target : Option (List String)
  arp_validate : Option String
  arp_all_targets : Option String
  primary_reselect : Option String
  lacp_rate : Option String
  transmit_hash_policy : Option String
  ad_select : Option String
  min_links : Option String
  all_slaves_active : Option String
deriving DecidableEq

/-- One entry of `ns.config["bonds"]`.  `min-links` and `all-slaves-active`
values are passed through `str(...)`; the model keeps them as strings. -/
structure BondCfg where
  interfaces : Option (List String)
  mtu : Option String
  macaddress : Option String
  parameters : BondParams
deriving DecidableEq

/-- The slices of `ns.config` the renderer reads.  A `none` for
`vlans`/`bonds` models the key being absent (`"vlans" in ns.config`). -/
structure NSConfig where
  vlans : Option (List (String × VlanCfg))
  bonds : Option (List (String × BondCfg))
  ethernets : List (String × Device)
deriving DecidableEq

/-- The `NetworkState` surface the renderer consumes: the version
discriminator, the nested config, `iter_interfaces()`, `iter_routes()`, and
the version-1 global DNS settings. -/
structure NetworkState where
  version : Nat
  config : NSConfig
  interfaces : List Iface
  routes : List RouteConf
  dns_searchdomains : List String
  dns_nameservers : List String
deriving DecidableEq

/-- Python dict assignment on an insertion-ordered association list:
overwrite in place, or append a new key. -/
def assocSet {β : Type} (l : List (String × β)) (k : String) (v : β) :
    List (String × β) :=
  if (l.map Prod.fst).contains k then
    l.map (fun p => if p.1 = k then (k, v) else p)
  else l ++ [(k, v)]

/-- Python `dict.get` on an association list. -/
def assocGet {β : Type} (l : List (String × β)) (k : String) : Option β :=
  (l.find? (fun p => p.1 == k)).map Prod.snd

/-- Truthiness of an optional string value. -/
def optTruthy : Option String → Bool
  | none => false
  | some s => !(s == "")

/-! ## The remaining Renderer methods -/

/-- `Renderer.generate_match_section`: emit `Name=` and `Driver=` when
present and truthy, `MACAddress=` only for physical interfaces, and return
`iface["name"]`.  (`match_dict` iterates name, driver, mac_address; the
`if not iface` guard never fires for a non-empty interface dict.) -/
def generate_match_section (iface : Iface) (cfg : CfgParser) :
    String × CfgParser :=
  let cfg := if iface.name == "" then cfg
    else cfg.update_section "Match" "Name" iface.name
  let cfg := match iface.driver with
    | some d => if d == "" then cfg else cfg.update_section "Match" "Driver" d
    | none => cfg
  let cfg := if iface.type == "physical" then
      match iface.mac_address with
      | some m =>
        if m == "" then cfg else cfg.update_section "Match" "MACAddress" m
      | none => cfg
    else cfg
  (iface.name, cfg)

/-- `Renderer.generate_link_section`: `MTUBytes=` when set, `MACAddress=`
for non-physical interfaces, `RequiredForOnline=no` when optional. -/
def generate_link_section (iface : Iface) (cfg : CfgParser) : CfgParser :=
  let cfg := match iface.mtu with
    | some m => if m == "" then cfg else cfg.update_section "Link" "MTUBytes" m
    | none => cfg
  let cfg := if !(iface.type == "physical") then
      match iface.mac_address with
      | some m =>
        if m == "" then cfg else cfg.update_section "Link" "MACAddress" m
      | none => cfg
    else cfg
  if iface.optional then cfg.update_section "Link" "RequiredForOnline" "no"
  else cfg

/-- `Renderer.parse_dns`.  `iface.dns` models a truthy `dns` dict; with no
per-interface DNS a version-1 state falls back to the global settings and a
version-2 state returns without emitting.  (A version outside 1/2 with no
DNS dict would raise `AttributeError` on `None.get` in the source; the
claims only concern versions 1 and 2, and the model returns the builder
unchanged there.) -/
def parse_dns (iface : Iface) (cfg : CfgParser) (ns : NetworkState) :
    CfgParser :=
  match iface.dns with
  | some dns =>
    let cfg := if dns.search ≠ [] then
        cfg.update_section "Network" "Domains" (joinSpace dns.search)
      else cfg
    if dns.nameservers ≠ [] then
      cfg.update_section "Network" "DNS" (joinSpace dns.nameservers)
    else cfg
  | none =>
    if ns.version = 1 then
      let cfg := if ns.dns_searchdomains ≠ [] then
          cfg.update_section "Network" "Domains" (joinSpace ns.dns_searchdomains)
        else cfg
      if ns.dns_nameservers ≠ [] then
        cfg.update_section "Network" "DNS" (joinSpace ns.dns_nameservers)
      else cfg
    else cfg

/-- Character-wise lowercasing (`str.casefold()` on the ASCII-range values
this renderer handles). -/
def toLowerStr (s : String) : String := String.mk (s.data.map Char.toLower)

/-- Modelled from the spec: `util.translate_bool` is defined in
`cloudinit.util` (outside the excerpted sources); it turns the boolean-like
literal strings into a bool and raises `ValueError` (here `none`) on
anything else. -/
def translate_bool (s : String) : Option Bool :=
  if s == "true" ∨ s == "1" ∨ s == "on" ∨ s == "yes" then some true
  else if s == "off" ∨ s == "0" ∨ s == "no" ∨ s == "false" then some false
  else none

/-- One iteration of `Renderer.dhcp_domain`: casefold the value, translate
boolean-like values to yes/no, keep the literal `route`, and coerce (with a
log line) anything else to `no`; emit `UseDomains=` into the given DHCP
section. -/
def dhcp_domain_one (cfg : CfgParser) (sec : String) : Option String →
    CfgParser
  | none => cfg
  | some raw =>
    let ret := toLowerStr raw
    let ret := match translate_bool ret with
      | some b => if b then "yes" else "no"
      | none => if !(ret == "route") then "no" else ret
    cfg.update_section sec "UseDomains" ret

/-- `Renderer.dhcp_domain`: the `dhcp4domain`/`dhcp6domain` loop. -/
def dhcp_domain (d : Device) (cfg : CfgParser) : CfgParser :=
  let cfg := dhcp_domain_one cfg "DHCPv4" d.dhcp4domain
  dhcp_domain_one cfg "DHCPv6" d.dhcp6domain

/-- Emit one DHCP override when the external key is present. -/
def applyOverride (cfg : CfgParser) (sec key : String) : Option String →
    CfgParser
  | some v => cfg.update_section sec key v
  | none => cfg

/-- `Renderer.parse_dhcp_overrides` at `version ∈ {"4", "6"}`: applied only
when the device carries a `dhcp<version>-overrides` mapping and the
accumulated mode is `yes` or `ipv<version>`.  The v4 table extends the
common UseDNS/UseDomains/UseHostname/UseNTP entries with SendHostname,
Hostname, RouteMetric, UseMTU and UseRoutes. -/
def parse_dhcp_overrides (cfg : CfgParser) (device : Device) (dhcp : String)
    (version : String) : CfgParser :=
  let ov := if version == "4" then device.dhcp4_overrides
    else device.dhcp6_overrides
  match ov with
  | none => cfg
  | some o =>
    if dhcp == "yes" ∨ dhcp == "ipv" ++ version then
      let sec := "DHCPv" ++ version
      let cfg := applyOverride cfg sec "UseDNS" o.use_dns
      let cfg := applyOverride cfg sec "UseDomains" o.use_domains
      let cfg := applyOverride cfg sec "UseHostname" o.use_hostname
      let cfg := applyOverride cfg sec "UseNTP" o.use_ntp
      if version == "4" then
        let cfg := applyOverride cfg sec "SendHostname" o.send_hostname
        let cfg := applyOverride cfg sec "Hostname" o.hostname
        let cfg := applyOverride cfg sec "RouteMetric" o.route_metric
        let cfg := applyOverride cfg sec "UseMTU" o.use_mtu
        applyOverride cfg sec "UseRoutes" o.use_routes
      else cfg
    else cfg

/-- The parent/member associations and lower-cased MAC registrations built
by `render_vlans` / `render_bonds` (`vlan_link` / `bond_link`): `links`
holds the parent-or-member-name → device-name entries, `macs` the
`"macaddress"` sub-dict. -/
structure LinkInfo where
  macs : List (String × String)
  links : List (String × String)
deriving DecidableEq

/-- `Renderer.render_vlans`: one `.netdev`-style unit per VLAN with
`[NetDev]` and `[VLAN]` sections; VLANs missing `id` or `link` are skipped
with a log line.  Returns the unit map and the link info. -/
def render_vlans (ns : NetworkState) : List (String × String) × LinkInfo :=
  (ns.config.vlans.getD []).foldl
    (fun (acc : List (String × String) × LinkInfo) pr =>
      let vlan_name := pr.1
      let vlan_cfg := pr.2
      match vlan_cfg.id, vlan_cfg.link with
      | some vlan_id, some parent =>
        let info := { acc.2 with links := assocSet acc.2.links parent vlan_name }
        let cfg := CfgParser.init
        let cfg := cfg.update_section "NetDev" "Name" vlan_name
        let cfg := cfg.update_section "NetDev" "Kind" "vlan"
        let cfg := match vlan_cfg.mtu with
          | some m =>
            if m == "" then cfg else cfg.update_section "NetDev" "MTUBytes" m
          | none => cfg
        let r := match vlan_cfg.macaddress with
          | some mval =>
            if mval == "" then (cfg, info)
            else
              let low := toLowerStr mval
              (cfg.update_section "NetDev" "MACAddress" low,
               { info with macs := assocSet info.macs vlan_name low })
          | none => (cfg, info)
        let cfg := (r.1).update_section "VLAN" "Id" vlan_id
        (assocSet acc.1 vlan_name cfg.get_final_conf, r.2)
      | _, _ => acc)
    ([], ⟨[], []⟩)

/-- `Renderer.render_bonds`: one `.netdev`-style unit per bond with
`[NetDev]` and `[Bond]` sections; bonds with a missing or empty
`interfaces` list are skipped with a log line.  Durations get an `ms`
suffix, the ARP target list is space-joined, `all-slaves-active` is
lower-cased. -/
def render_bonds (ns : NetworkState) : List (String × String) × LinkInfo :=
  (ns.config.bonds.getD []).foldl
    (fun (acc : List (String × String) × LinkInfo) pr =>
      let bond_name := pr.1
      let bond_cfg := pr.2
      match bond_cfg.interfaces with
      | none => acc
      | some ifs =>
        if ifs.isEmpty then acc
        else
          let info := { acc.2 with
            links := ifs.foldl (fun l i => assocSet l i bond_name) acc.2.links }
          let cfg := CfgParser.init
          let cfg := cfg.update_section "NetDev" "Name" bond_name
          let cfg := cfg.update_section "NetDev" "Kind" "bond"
          let cfg := match bond_cfg.mtu with
            | some m =>
              if m == "" then cfg else cfg.update_section "NetDev" "MTUBytes" m
            | none => cfg
          let r := match bond_cfg.macaddress with
            | some mval =>
              if mval == "" then (cfg, info)
              else
                let low := toLowerStr mval
                (cfg.update_section "NetDev" "MACAddress" low,
                 { info with macs := assocSet info.macs bond_name low })
            | none => (cfg, info)
          let cfg := r.1
          let ps := bond_cfg.parameters
          let cfg := applyOverride cfg "Bond" "Mode" ps.mode
          let cfg := match ps.mii_monitor_interval with
            | some v => cfg.update_section "Bond" "MIIMonitorSec" (v ++ "ms")
            | none => cfg
          let cfg := match ps.updelay with
            | some v => cfg.update_section "Bond" "UpDelaySec" (v ++ "ms")
            | none => cfg
          let cfg := match ps.downdelay with
            | some v => cfg.update_section "Bond" "DownDelaySec" (v ++ "ms")
            | none => cfg
          let cfg := match ps.arp_interval with
            | some v => cfg.update_section "Bond" "ARPIntervalSec" (v ++ "ms")
            | none => cfg
          let cfg := match ps.arp_ip_target with
            | some targets =>
              cfg.update_section "Bond" "ARPIPTargets" (joinSpace targets)
            | none => cfg
          let cfg := applyOverride cfg "Bond" "ARPValidate" ps.arp_validate
          let cfg := applyOverride cfg "Bond" "ARPAllTargets" ps.arp_all_targets
          let cfg := applyOverride cfg "Bond" "PrimaryReselectPolicy"
            ps.primary_reselect
          let cfg := applyOverride cfg "Bond" "LACPTransmitRate" ps.lacp_rate
          let cfg := applyOverride cfg "Bond" "TransmitHashPolicy"
            ps.transmit_hash_policy
          let cfg := applyOverride cfg "Bond" "AdSelect" ps.ad_select
          let cfg := applyOverride cfg "Bond" "MinLinks" ps.min_links
          let cfg := match ps.all_slaves_active with
            | some v =>
              cfg.update_section "Bond" "AllSlavesActive" (toLowerStr v)
            | none => cfg
          (assocSet acc.1 bond_name cfg.get_final_conf, info))
    ([], ⟨[], []⟩)

/-- `"use-domains" in device.get(f"dhcp{version}-overrides", {})`. -/
def hasUseDomains : Option DhcpOverrides → Bool
  | some o => o.use_domains.isSome
  | none => false

/-- The vlan/bond MAC backfill of the interface loop
(`if not iface["mac_address"] and <link_info>.get("macaddress"): ...`). -/
def backfillMac (iface : Iface) (li : LinkInfo) : Iface :=
  if !(optTruthy iface.mac_address) ∧ li.macs ≠ [] then
    match assocGet li.macs iface.name with
    | some mac =>
      if mac == "" then iface else { iface with mac_address := some mac }
    | none => iface
  else iface

/-- The version-2 tail of the interface loop (`if ns.version == 2:`):
`set-name` aliasing, the VMware `dhcp<v>domain` translation, the fatal
conflict check against `dhcp<v>-overrides.use-domains`, and the DHCP
override translation for versions 4 and 6. -/
def v2DomainBlock (ns : NetworkState) (iface_name dhcp : String)
    (cfg : CfgParser) : Except String CfgParser :=
  let name := match ns.config.ethernets.find?
      (fun p => p.2.set_name == some iface_name) with
    | some d => d.1
    | none => iface_name
  match assocGet ns.config.ethernets name with
  | none => Except.ok cfg
  | some device =>
    let cfg := dhcp_domain device cfg
    if device.dhcp4domain.isSome ∧ hasUseDomains device.dhcp4_overrides then
      Except.error (name ++ " has both dhcp4domain and dhcp4-overrides.use-domains configured. Use one")
    else
      let cfg := parse_dhcp_overrides cfg device dhcp "4"
      if device.dhcp6domain.isSome ∧ hasUseDomains device.dhcp6_overrides then
        Except.error (name ++ " has both dhcp6domain and dhcp6-overrides.use-domains configured. Use one")
      else
        Except.ok (parse_dhcp_overrides cfg device dhcp "6")

/-- The body of the `for iface in ns.iter_interfaces()` loop of
`_render_content`: VLAN/bond cross references and MAC backfill, the Match,
Link, subnet, DNS and global-route population, then the version-2 block.
Returns the unit key (`iface["name"]`) and the populated builder, or the
conflict error. -/
def renderIfaceCfg (ns : NetworkState) (vlan_link bond_link : LinkInfo)
    (iface : Iface) : Except String (String × CfgParser) :=
  let cfg := CfgParser.init
  let cfg := match assocGet vlan_link.links iface.name with
    | some vlan_name =>
      if vlan_name == "" then cfg
      else cfg.update_section "Network" "VLAN" vlan_name
    | none => cfg
  let iface := backfillMac iface vlan_link
  let cfg := match assocGet bond_link.links iface.name with
    | some bond_name =>
      if bond_name == "" then cfg
      else cfg.update_section "Network" "Bond" bond_name
    | none => cfg
  let iface := backfillMac iface bond_link
  let mr := generate_match_section iface cfg
  let link := mr.1
  let cfg := generate_link_section iface mr.2
  let pr := parse_subnets iface cfg
  let dhcp := pr.2
  let cfg := parse_dns iface pr.1 ns
  let cfg := (ns.routes.foldl
    (fun (q : CfgParser × Nat) route =>
      (parse_routes ("c" ++ toString q.2) route q.1, q.2 + 1))
    (cfg, 0)).1
  if ns.version = 2 then
    (v2DomainBlock ns iface.name dhcp cfg).map (fun c => (link, c))
  else Except.ok (link, cfg)

/-- The loop body with its final `cfg.get_final_conf()` serialization. -/
def renderIface (ns : NetworkState) (vlan_link bond_link : LinkInfo)
    (iface : Iface) : Except String (String × String) :=
  (renderIfaceCfg ns vlan_link bond_link iface).map
    (fun p => (p.1, p.2.get_final_conf))

/-- The value of `_render_content`: the per-interface units plus the two
device-definition unit maps that `render_network_state` pops (an absent
`vlans`/`bonds` config key leaves the corresponding map empty, matching the
`pop(..., {})` default). -/
structure RenderOut where
  network : List (String × String)
  vlan_netdev : List (String × String)
  bond_netdev : List (String × String)
deriving DecidableEq

/-- `Renderer._render_content`: render VLAN and bond device units first
(when their config keys are present), then every interface in order; a
conflict error from any interface aborts the whole render. -/
def _render_content (ns : NetworkState) : Except String RenderOut := do
  let vd := if ns.config.vlans.isSome then render_vlans ns else ([], ⟨[], []⟩)
  let bd := if ns.config.bonds.isSome then render_bonds ns else ([], ⟨[], []⟩)
  let network ← ns.interfaces.foldlM
    (fun (acc : List (String × String)) iface => do
      let r ← renderIface ns vd.2 bd.2 iface
      pure (assocSet acc r.1 r.2))
    []
  pure { network := network, vlan_netdev := vd.1, bond_netdev := bd.1 }

/-- `Renderer.render_network_state` (with the default `target=None`):
`util.ensure_dir` only creates the output directory, then the whole content
is rendered, and only afterwards one file per unit is written — `.network`
files for interfaces, then `.netdev` files for VLANs and bonds.  The model
returns the ordered (path, written text) list; an error from
`_render_content` propagates before any write. -/
def render_network_state (ns : NetworkState) (network_conf_dir : String) :
    Except String (List (String × String)) := do
  let out ← _render_content ns
  pure (out.network.map (fun p => create_network_file p.1 p.2 network_conf_dir ".network")
    ++ out.vlan_netdev.map (fun p => create_network_file p.1 p.2 network_conf_dir ".netdev")
    ++ out.bond_netdev.map (fun p => create_network_file p.1 p.2 network_conf_dir ".netdev"))

/-! ### Global DNS fallback (C8) -/

/-- C8: with no per-interface DNS block, `parse_dns` falls back to the
global `dns_searchdomains`/`dns_nameservers` (space-joined `Domains=` and
`DNS=` lines in `Network`) exactly for the version-1 model; a version-2
model emits nothing; a present DNS block is emitted identically for either
version. -/
theorem C8_dns_fallback (iface : Iface) (cfg : CfgParser) (ns : NetworkState) :
    (iface.dns = none → ns.version = 2 → parse_dns iface cfg ns = cfg)
    ∧ (iface.dns = none → ns.version = 1 →
        ns.dns_searchdomains ≠ [] → ns.dns_nameservers ≠ [] →
        parse_dns iface cfg ns
          = (cfg.update_section "Network" "Domains"
                (joinSpace ns.dns_searchdomains)).update_section
              "Network" "DNS" (joinSpace ns.dns_nameservers))
    ∧ (∀ d, iface.dns = some d → ∀ ns' : NetworkState,
        parse_dns iface cfg ns' = parse_dns iface cfg ns)
    ∧ (∀ d, iface.dns = some d → d.search ≠ [] → d.nameservers ≠ [] →
        parse_dns iface cfg ns
          = (cfg.update_section "Network" "Domains"
                (joinSpace d.search)).update_section
              "Network" "DNS" (joinSpace d.nameservers)) := by
  refine ⟨?_, ?_, ?_, ?_⟩
  · intro hd hv
    unfold parse_dns
    rw [hd, hv]
    simp
  · intro hd hv hs hn
    unfold parse_dns
    rw [hd, hv]
    simp [hs, hn]
  · intro d hd ns'
    unfold parse_dns
    rw [hd]
  · intro d hd hs hn
    unfold parse_dns
    rw [hd]
    simp [hs, hn]

/-- An interface with the given name and nothing else set. -/
def namedIface (nm : String) : Iface :=
  { name := nm, type := "physical", mac_address := none, driver := none,
    mtu := none, optional := false, accept_ra := none, subnets := [],
    dns := none }

/-- A version-1 state with only global DNS settings. -/
def v1DnsNS : NetworkState :=
  { version := 1, config := { vlans := none, bonds := none, ethernets := [] },
    interfaces := [], routes := [],
    dns_searchdomains := ["example.com"], dns_nameservers := ["8.8.8.8"] }

theorem C8_dns_fallback_witness :
    parse_dns (namedIface "eth0") CfgParser.init v1DnsNS
      = (CfgParser.init.update_section "Network" "Domains"
            (joinSpace v1DnsNS.dns_searchdomains)).update_section
          "Network" "DNS" (joinSpace v1DnsNS.dns_nameservers) :=
  (C8_dns_fallback (namedIface "eth0") CfgParser.init v1DnsNS).2.1
    rfl rfl (by decide) (by decide)

/-! ### The fatal domain-override conflict (C4) and its atomicity (C10) -/

/-- A version-2 state with one ethernet device configured under the name of
its one interface. -/
def v2ns (nm : String) (dev : Device) : NetworkState :=
  { version := 2,
    config := { vlans := none, bonds := none, ethernets := [(nm, dev)] },
    interfaces := [namedIface nm], routes := [],
    dns_searchdomains := [], dns_nameservers := [] }

def exceptIsError {α : Type} : Except String α → Bool
  | .error _ => true
  | .ok _ => false

instance {ε α : Type} [DecidableEq ε] [DecidableEq α] :
    DecidableEq (Except ε α) := fun a b =>
  match a, b with
  | .error e₁, .error e₂ =>
    if h : e₁ = e₂ then isTrue (by rw [h])
    else isFalse (by intro hc; injection hc; exact h (by assumption))
  | .ok v₁, .ok v₂ =>
    if h : v₁ = v₂ then isTrue (by rw [h])
    else isFalse (by intro hc; injection hc; exact h (by assumption))
  | .error _, .ok _ => isFalse (by intro hc; exact Except.noConfusion hc)
  | .ok _, .error _ => isFalse (by intro hc; exact Except.noConfusion hc)

theorem backfillMac_name (iface : Iface) (li : LinkInfo) :
    (backfillMac iface li).name = iface.name := by
  unfold backfillMac
  split
  · rcases h : assocGet li.macs iface.name with _ | mac
    · rfl
    · simp only
      split <;> rfl
  · rfl

theorem generate_match_section_fst (iface : Iface) (cfg : CfgParser) :
    (generate_match_section iface cfg).1 = iface.name := rfl

/-- Every interface render is the common population followed by the
version-2 block (or a plain success for other versions), keyed by the
interface name. -/
theorem renderIfaceCfg_shape (ns : NetworkState) (vl bl : LinkInfo)
    (iface : Iface) :
    ∃ (link : String) (cfg : CfgParser) (dhcp : String),
      renderIfaceCfg ns vl bl iface
        = (if ns.version = 2 then
            (v2DomainBlock ns link dhcp cfg).map (fun c => (link, c))
          else Except.ok (link, cfg))
      ∧ link = iface.name := by
  refine ⟨_, _, _, rfl, ?_⟩
  first
  | rw [backfillMac_name, backfillMac_name]
  | rw [generate_match_section_fst, backfillMac_name, backfillMac_name]

/-- The conflict-check structure of the version-2 block on the
single-device state. -/
theorem v2DomainBlock_cases (nm dhcp : String) (cfg : CfgParser)
    (dev : Device) :
    ((dev.dhcp4domain.isSome = true ∧ hasUseDomains dev.dhcp4_overrides = true) →
      v2DomainBlock (v2ns nm dev) nm dhcp cfg
        = Except.error (nm ++ " has both dhcp4domain and dhcp4-overrides.use-domains configured. Use one"))
    ∧ (¬(dev.dhcp4domain.isSome = true ∧ hasUseDomains dev.dhcp4_overrides = true) →
        (dev.dhcp6domain.isSome = true ∧ hasUseDomains dev.dhcp6_overrides = true) →
        v2DomainBlock (v2ns nm dev) nm dhcp cfg
          = Except.error (nm ++ " has both dhcp6domain and dhcp6-overrides.use-domains configured. Use one"))
    ∧ (¬(dev.dhcp4domain.isSome = true ∧ hasUseDomains dev.dhcp4_overrides = true) →
        ¬(dev.dhcp6domain.isSome = true ∧ hasUseDomains dev.dhcp6_overrides = true) →
        ∃ c, v2DomainBlock (v2ns nm dev) nm dhcp cfg = Except.ok c) := by
  have hname : (match (v2ns nm dev).config.ethernets.find?
      (fun p => p.2.set_name == some nm) with
    | some d => d.1
    | none => nm) = nm := by
    show (match List.find? (fun p => p.2.set_name == some nm) [(nm, dev)] with
      | some d => d.1
      | none => nm) = nm
    simp only [List.find?_cons]
    cases hsn : (dev.set_name == some nm) <;> simp [hsn]
  have hget : assocGet (v2ns nm dev).config.ethernets nm = some dev := by
    show ((List.find? (fun p => p.1 == nm) [(nm, dev)]).map Prod.snd)
      = some dev
    simp [List.find?_cons]
  refine ⟨?_, ?_, ?_⟩
  · intro h4
    unfold v2DomainBlock
    rw [hname]
    simp only [hget]
    rw [if_pos h4]
  · intro h4 h6
    unfold v2DomainBlock
    rw [hname]
    simp only [hget]
    rw [if_neg h4, if_pos h6]
  · intro h4 h6
    unfold v2DomainBlock
    rw [hname]
    simp only [hget]
    rw [if_neg h4, if_neg h6]
    exact ⟨_, rfl⟩

theorem render_content_single (ns : NetworkState) (iface : Iface)
    (hifs : ns.interfaces = [iface]) (hvl : ns.config.vlans = none)
    (hbd : ns.config.bonds = none) :
    _render_content ns
      = (renderIfaceCfg ns ⟨[], []⟩ ⟨[], []⟩ iface).bind
          (fun r => Except.ok
            { network := [(r.1, r.2.get_final_conf)], vlan_netdev := [],
              bond_netdev := [] }) := by
  unfold _render_content renderIface
  rw [hifs, hvl, hbd]
  simp only [Option.isSome_none, Bool.false_eq_true, if_false]
  cases hr : renderIfaceCfg ns ⟨[], []⟩ ⟨[], []⟩ iface with
  | error e =>
    simp [hr, Except.map, Except.bind, bind, assocSet]
  | ok r =>
    simp [hr, Except.map, Except.bind, bind, pure, Except.pure, assocSet]

/-- C4: on a version-2 model, an interface whose device sets both the legacy
`dhcp<v>domain` toggle and `dhcp<v>-overrides.use-domains` (for v = 4 or 6)
makes rendering fail with the descriptive `RuntimeError`; with at most one
of the two set, no error is raised. -/
theorem C4_domain_conflict_fatal (nm : String) (dev : Device) :
    (exceptIsError (_render_content (v2ns nm dev)) = true
      ↔ (dev.dhcp4domain.isSome = true ∧ hasUseDomains dev.dhcp4_overrides = true)
        ∨ (dev.dhcp6domain.isSome = true ∧ hasUseDomains dev.dhcp6_overrides = true))
    ∧ ((dev.dhcp4domain.isSome = true ∧ hasUseDomains dev.dhcp4_overrides = true) →
        _render_content (v2ns nm dev)
          = Except.error (nm ++ " has both dhcp4domain and dhcp4-overrides.use-domains configured. Use one")) := by
  obtain ⟨link, cfg, dhcp, hshape, hlink⟩ :=
    renderIfaceCfg_shape (v2ns nm dev) ⟨[], []⟩ ⟨[], []⟩ (namedIface nm)
  have hlink' : link = nm := hlink
  rw [hlink'] at hshape
  rw [if_pos (show (v2ns nm dev).version = 2 from rfl)] at hshape
  obtain ⟨hc4, hc6, hok⟩ := v2DomainBlock_cases nm dhcp cfg dev
  have hrc := render_content_single (v2ns nm dev) (namedIface nm) rfl rfl rfl
  rw [hshape] at hrc
  by_cases h4 : dev.dhcp4domain.isSome = true ∧ hasUseDomains dev.dhcp4_overrides = true
  · rw [hc4 h4] at hrc
    constructor
    · rw [hrc]
      simp [exceptIsError, Except.map, Except.bind, h4]
    · intro _
      rw [hrc]
      rfl
  · refine ⟨?_, fun hc => absurd hc h4⟩
    by_cases h6 : dev.dhcp6domain.isSome = true ∧ hasUseDomains dev.dhcp6_overrides = true
    · rw [hc6 h4 h6] at hrc
      rw [hrc]
      simp [exceptIsError, Except.map, Except.bind, h4, h6]
    · obtain ⟨res, hres⟩ := hok h4 h6
      rw [hres] at hrc
      rw [hrc]
      simp [exceptIsError, Except.map, Except.bind, h4, h6]

/-- C10: when `_render_content` raises the domain-conflict error,
`render_network_state` propagates it before producing any file write: the
write list is never reached, for the failing interface as well as for any
interface, VLAN or bond unit rendered earlier in the pass. -/
theorem C10_error_aborts_before_any_write (ns : NetworkState)
    (dir e : String) (h : _render_content ns = Except.error e) :
    render_network_state ns dir = Except.error e := by
  unfold render_network_state
  rw [h]
  rfl

/-- A device carrying both the legacy `dhcp4domain` toggle and
`dhcp4-overrides.use-domains`. -/
def conflictDevice : Device :=
  { set_name := none, dhcp4domain := some "true", dhcp6domain := none,
    dhcp4_overrides := some
      { use_dns := none, use_domains := some "true", use_hostname := none,
        use_ntp := none, send_hostname := none, hostname := none,
        route_metric := none, use_mtu := none, use_routes := none },
    dhcp6_overrides := none }

theorem C10_error_aborts_before_any_write_witness :
    _render_content (v2ns "eth0" conflictDevice)
      = Except.error "eth0 has both dhcp4domain and dhcp4-overrides.use-domains configured. Use one"
    ∧ render_network_state (v2ns "eth0" conflictDevice) "/etc/systemd/network/"
      = Except.error "eth0 has both dhcp4domain and dhcp4-overrides.use-domains configured. Use one" :=
  ⟨by decide,
    C10_error_aborts_before_any_write (v2ns "eth0" conflictDevice)
      "/etc/systemd/network/" _ (by decide)⟩

/-! ### Route-stanza isolation (C3) -/

/-- A route dict with all mapped keys present. -/
def fullRoute (net npfx ngw nmet : String) : RouteConf :=
  { network := some net, pfx := some npfx, gateway := some ngw,
    metric := some nmet }

/-- A static subnet with one declared route, an address and a gateway. -/
def c3Subnet (net npfx ngw nmet a p g : String) : Subnet :=
  { type := "static", routes := [fullRoute net npfx ngw nmet],
    address := some a, pfx := some p, gateway := some g,
    dns_nameservers := none, dns_search := none }

/-- The C3 interface: exactly one subnet route and one subnet gateway. -/
def c3Iface (net npfx ngw nmet a p g : String) : Iface :=
  { name := "eth0", type := "physical", mac_address := none, driver := none,
    mtu := none, optional := false, accept_ra := none,
    subnets := [c3Subnet net npfx ngw nmet a p g], dns := none }

/-- The C3 network state: one interface and one global route, version 1. -/
def c3NS (net npfx ngw nmet a p g gnet gpfx ggw gmet : String) :
    NetworkState :=
  { version := 1, config := { vlans := none, bonds := none, ethernets := [] },
    interfaces := [c3Iface net npfx ngw nmet a p g],
    routes := [fullRoute gnet gpfx ggw gmet],
    dns_searchdomains := [], dns_nameservers := [] }

theorem assocGet_nil {β : Type} (k : String) :
    assocGet ([] : List (String × β)) k = none := rfl

theorem backfillMac_empty (iface : Iface) :
    backfillMac iface ⟨[], []⟩ = iface := by
  unfold backfillMac
  rw [if_neg (fun h => h.2 rfl)]

theorem generate_match_section_route (iface : Iface) (cfg : CfgParser) :
    (generate_match_section iface cfg).2.route = cfg.route := by
  unfold generate_match_section
  rcases hd : iface.driver with _ | d <;>
    rcases hm : iface.mac_address with _ | m <;>
    simp only [hd, hm, apply_ite CfgParser.route, update_section_route,
      ite_self]

theorem generate_link_section_route (iface : Iface) (cfg : CfgParser) :
    (generate_link_section iface cfg).route = cfg.route := by
  unfold generate_link_section
  rcases hu : iface.mtu with _ | u <;>
    rcases hm : iface.mac_address with _ | m <;>
    simp only [hu, hm, apply_ite CfgParser.route, update_section_route,
      ite_self]

theorem parse_dns_route (iface : Iface) (cfg : CfgParser)
    (ns : NetworkState) : (parse_dns iface cfg ns).route = cfg.route := by
  unfold parse_dns
  rcases hd : iface.dns with _ | d <;>
    simp only [hd, apply_ite CfgParser.route, update_section_route, ite_self]

theorem parse_subnets_route (iface : Iface) (cfg : CfgParser) :
    (parse_subnets iface cfg).1.route
      = (iface.subnets.foldl processSubnet (cfg, "no", 0)).1.route := by
  unfold parse_subnets
  rcases hra : iface.accept_ra with _ | b <;>
    simp only [hra, apply_ite CfgParser.route, update_section_route,
      ite_self]

/-- The serialized unit of a successful interface render (empty string on
error). -/
def okUnit (r : Except String (String × String)) : String :=
  match r with
  | .ok p => p.2
  | .error _ => ""

/-- Number of (possibly overlapping) occurrences of `pat` in `l`. -/
def countOccurAux (pat : List Char) : List Char → Nat
  | [] => 0
  | c :: rest =>
    (if pat.isPrefixOf (c :: rest) then 1 else 0) + countOccurAux pat rest

/-- Number of occurrences of `pat` in `s`. -/
def countOccur (pat s : String) : Nat := countOccurAux pat.data s.data

/-- The `Route` association list produced for the C3 interface and state:
one `r0` stanza from the subnet route, one `a1` stanza from the subnet
gateway (with its conditional `GatewayOnLink`), one `c0` stanza from the
global route — in that insertion order. -/
theorem c3_route_assoc (net npfx ngw nmet a p g gnet gpfx ggw gmet : String) :
    ∃ link cfg,
      renderIfaceCfg (c3NS net npfx ngw nmet a p g gnet gpfx ggw gmet)
          ⟨[], []⟩ ⟨[], []⟩ (c3Iface net npfx ngw nmet a p g)
        = Except.ok (link, cfg)
      ∧ cfg.route
        = [("r0",
            addLine (addLine (addLine [] (kvLine "Gateway" ngw))
              (kvLine "Destination" (net ++ ("/" ++ npfx))))
              (kvLine "Metric" nmet)),
           ("a1",
            if should_add_gateway_onlink_flag g (a ++ ("/" ++ p)) = true
            then addLine (addLine [] (kvLine "Gateway" g))
              (kvLine "GatewayOnLink" "yes")
            else addLine [] (kvLine "Gateway" g)),
           ("c0",
            addLine (addLine (addLine [] (kvLine "Gateway" ggw))
              (kvLine "Destination" (gnet ++ ("/" ++ gpfx))))
              (kvLine "Metric" gmet))] := by
  unfold renderIfaceCfg
  rw [if_neg (show ¬(c3NS net npfx ngw nmet a p g gnet gpfx ggw gmet).version
    = 2 from by simp [c3NS])]
  refine ⟨_, _, rfl, ?_⟩
  show ((c3NS net npfx ngw nmet a p g gnet gpfx ggw gmet).routes.foldl
      (fun q route => (parse_routes ("c" ++ toString q.2) route q.1, q.2 + 1))
      (parse_dns _ (parse_subnets _ _).1 _, 0)).1.route = _
  rw [show (c3NS net npfx ngw nmet a p g gnet gpfx ggw gmet).routes
    = [fullRoute gnet gpfx ggw gmet] from rfl]
  rw [List.foldl_cons, List.foldl_nil]
  unfold parse_routes fullRoute
  simp only [update_route_section_route, update_section_route,
    parse_dns_route, parse_subnets_route]
  rw [show (backfillMac (backfillMac (c3Iface net npfx ngw nmet a p g)
      ⟨[], []⟩) ⟨[], []⟩).subnets
    = [c3Subnet net npfx ngw nmet a p g] from rfl]
  rw [List.foldl_cons, List.foldl_nil]
  unfold processSubnet c3Subnet
  simp only [List.foldl_cons, List.foldl_nil]
  unfold parse_routes fullRoute
  simp only [update_route_section_route, update_section_route,
    generate_match_section_route, generate_link_section_route,
    apply_ite CfgParser.route]
  have e1 : ("r" ++ toString (0 : Nat) : String) = "r0" := by decide
  have e2 : ("a" ++ toString (1 : Nat) : String) = "a1" := by decide
  have e3 : ("c" ++ toString (0 : Nat) : String) = "c0" := by decide
  by_cases hf : should_add_gateway_onlink_flag g (a ++ ("/" ++ p)) = true <;>
    simp [hf, e1, e2, e3, updRoute, updEntry, generate_match_section_route,
      generate_link_section_route, update_section_route, CfgParser.init,
      assocGet_nil, backfillMac_empty, c3Iface, List.contains_cons,
      show (("r0" : String) == "a1") = false from by decide,
      show (("r0" : String) == "c0") = false from by decide,
      show (("a1" : String) == "c0") = false from by decide,
      show ¬("r0" : String) = "a1" from by decide,
      show ¬("r0" : String) = "c0" from by decide,
      show ¬("a1" : String) = "c0" from by decide]

set_option maxRecDepth 8192 in
/-- C3: the three route sources land under the disjoint synthetic id
families `r<n>`, `a<n>`, `c<n>` and never merge: with one subnet route, one
subnet gateway and one global route the builder holds exactly the stanzas
`r0`, `a1`, `c0`, each containing only the lines of its own source, and the
serialized unit of a concrete instance contains exactly three `[Route]`
headers. -/
theorem C3_route_isolation (net npfx ngw nmet a p g gnet gpfx ggw gmet :
    String) :
    (∃ link cfg,
      renderIfaceCfg (c3NS net npfx ngw nmet a p g gnet gpfx ggw gmet)
          ⟨[], []⟩ ⟨[], []⟩ (c3Iface net npfx ngw nmet a p g)
        = Except.ok (link, cfg)
      ∧ cfg.route.map Prod.fst = ["r0", "a1", "c0"]
      ∧ (∀ x, x ∈ routeVal cfg "r0" ↔
          x = kvLine "Gateway" ngw
          ∨ x = kvLine "Destination" (net ++ ("/" ++ npfx))
          ∨ x = kvLine "Metric" nmet)
      ∧ (∀ x, x ∈ routeVal cfg "a1" ↔
          x = kvLine "Gateway" g
          ∨ (should_add_gateway_onlink_flag g (a ++ ("/" ++ p)) = true
            ∧ x = kvLine "GatewayOnLink" "yes"))
      ∧ (∀ x, x ∈ routeVal cfg "c0" ↔
          x = kvLine "Gateway" ggw
          ∨ x = kvLine "Destination" (gnet ++ ("/" ++ gpfx))
          ∨ x = kvLine "Metric" gmet))
    ∧ countOccur "[Route]"
        (okUnit (renderIface
          (c3NS "10.0.0.0" "8" "10.0.0.1" "100" "192.0.2.10" "24" "192.0.2.1"
            "172.16.0.0" "12" "172.16.0.1" "50")
          ⟨[], []⟩ ⟨[], []⟩
          (c3Iface "10.0.0.0" "8" "10.0.0.1" "100" "192.0.2.10" "24"
            "192.0.2.1"))) = 3 := by
  obtain ⟨link, cfg, hok, hroute⟩ :=
    c3_route_assoc net npfx ngw nmet a p g gnet gpfx ggw gmet
  refine ⟨⟨link, cfg, hok, ?_, ?_, ?_, ?_⟩, by decide⟩
  · rw [hroute]
    rfl
  · rw [routeVal, hroute]
    simp only [List.find?_cons, show (("r0" : String) == "r0") = true
      from by decide]
    intro x
    simp only [Option.map_some', Option.getD_some, mem_addLine,
      List.not_mem_nil, false_or]
    tauto
  · rw [routeVal, hroute]
    simp only [List.find?_cons,
      show (("r0" : String) == "a1") = false from by decide,
      show (("a1" : String) == "a1") = true from by decide]
    intro x
    by_cases hf : should_add_gateway_onlink_flag g (a ++ ("/" ++ p)) = true
    · rw [if_pos hf]
      simp only [Option.map_some', Option.getD_some, mem_addLine,
        List.not_mem_nil, false_or, hf]
      tauto
    · rw [if_neg hf]
      simp only [Option.map_some', Option.getD_some, mem_addLine,
        List.not_mem_nil, false_or]
      constructor
      · exact fun h => Or.inl h
      · rintro (h | ⟨hc, -⟩)
        · exact h
        · exact absurd hc hf
  · rw [routeVal, hroute]
    simp only [List.find?_cons,
      show (("r0" : String) == "c0") = false from by decide,
      show (("a1" : String) == "c0") = false from by decide,
      show (("c0" : String) == "c0") = true from by decide]
    intro x
    simp only [Option.map_some', Option.getD_some, mem_addLine,
      List.not_mem_nil, false_or]
    tauto

theorem C3_route_isolation_witness :
    ("Gateway=10.0.0.1" = kvLine "Gateway" "10.0.0.1"
        ∨ "Gateway=10.0.0.1" = kvLine "Destination" ("10.0.0.0" ++ ("/" ++ "8"))
        ∨ "Gateway=10.0.0.1" = kvLine "Metric" "100") := by
  have h := C3_route_isolation "10.0.0.0" "8" "10.0.0.1" "100" "192.0.2.10"
    "24" "192.0.2.1" "172.16.0.0" "12" "172.16.0.1" "50"
  obtain ⟨⟨link, cfg, hok, hkeys, hr0, _, _⟩, -⟩ := h
  exact (hr0 "Gateway=10.0.0.1").1 (by
    rw [show cfg = (match
      renderIfaceCfg (c3NS "10.0.0.0" "8" "10.0.0.1" "100" "192.0.2.10" "24"
        "192.0.2.1" "172.16.0.0" "12" "172.16.0.1" "50") ⟨[], []⟩ ⟨[], []⟩
        (c3Iface "10.0.0.0" "8" "10.0.0.1" "100" "192.0.2.10" "24"
          "192.0.2.1") with
      | Except.ok r => r.2
      | Except.error _ => CfgParser.init) from by rw [hok]]
    decide)

/-! ## The Canonicalizer (`normalize` / `_normalize_value`, C9) -/

/-- The Python values `_normalize_value` operates on: numbers, strings,
lists, and dicts.  The dicts this module builds are string-keyed, and a
dict is modelled as its insertion-ordered association list. -/
inductive PyVal where
  | int : Int → PyVal
  | str : String → PyVal
  | list : List PyVal → PyVal
  | dict : List (String × PyVal) → PyVal

mutual

/-- Python `==` on the modelled values: equal types compare by value,
cross-type comparisons are `False` (equality never raises). -/
def pyEq : PyVal → PyVal → Bool
  | .int a, .int b => a == b
  | .str a, .str b => a == b
  | .list a, .list b => pyEqList a b
  | .dict a, .dict b => pyEqDict a b
  | _, _ => false

def pyEqList : List PyVal → List PyVal → Bool
  | [], [] => true
  | x :: xs, y :: ys => pyEq x y && pyEqList xs ys
  | _, _ => false

def pyEqDict : List (String × PyVal) → List (String × PyVal) → Bool
  | [], [] => true
  | p :: ps, q :: qs => (p.1 == q.1) && pyEq p.2 q.2 && pyEqDict ps qs
  | _, _ => false

end

/-- Strict string comparison, the negation of `strLeB` the other way. -/
def strLtB (s t : String) : Bool := !(strLeB t s)

mutual

/-- Python `<` on the modelled values: numbers and strings compare within
their type, lists compare lexicographically (equality first, then `<` at
the first difference, then by length), and every other combination —
including dict against dict — raises `TypeError`, modelled as
`Except.error`. -/
def pyLt : PyVal → PyVal → Except Unit Bool
  | .int a, .int b => .ok (decide (a < b))
  | .str a, .str b => .ok (strLtB a b)
  | .list a, .list b => pyListLt a b
  | _, _ => .error ()

def pyListLt : List PyVal → List PyVal → Except Unit Bool
  | [], [] => .ok false
  | [], _ :: _ => .ok true
  | _ :: _, [] => .ok false
  | x :: xs, y :: ys =>
    if pyEq x y then pyListLt xs ys else pyLt x y

end

/-- Insert into a sorted prefix, comparing left to right; the first raising
comparison aborts the sort (`sorted` raises `TypeError`). -/
def pyInsert (x : PyVal) : List PyVal → Except Unit (List PyVal)
  | [] => .ok [x]
  | y :: ys =>
    match pyLt x y with
    | .error e => .error e
    | .ok true => .ok (x :: y :: ys)
    | .ok false =>
      match pyInsert x ys with
      | .error e => .error e
      | .ok r => .ok (y :: r)

/-- The insertion fold of the sort, threading the error. -/
def pySortedAux (acc : List PyVal) : List PyVal → Except Unit (List PyVal)
  | [] => .ok acc
  | x :: xs =>
    match pyInsert x acc with
    | .error e => .error e
    | .ok acc' => pySortedAux acc' xs

/-- Python `sorted(...)` on the modelled values: a stable comparison sort
that raises as soon as it compares an incomparable pair, modelled as a
stable insertion sort in the error monad.  (CPython uses a different
comparison sort; the properties proved below — success and sortedness under
mutual comparability, and the unchanged fallback order on error — do not
depend on which pairs the algorithm happens to compare.) -/
def pySorted (l : List PyVal) : Except Unit (List PyVal) :=
  pySortedAux [] l

/-- The `isinstance(item, (dict, list))` test. -/
def isNested : PyVal → Bool
  | .dict _ => true
  | .list _ => true
  | _ => false

mutual

/-- `_normalize_value`: a dict gets sorted keys with recursively normalized
values; a list gets its nested elements normalized and is then sorted when
every comparison succeeds (`try: return sorted(...) except TypeError:`
returns the normalized, unsorted items); scalars pass through.  (The source
sorts the keys first and then normalizes each value; key sorting inspects
keys only, so normalizing the values first and then key-sorting is the same
function.) -/
def normalizeValue : PyVal → PyVal
  | .int n => .int n
  | .str s => .str s
  | .dict d => .dict (keySort (normalizePairs d))
  | .list l =>
    match pySorted (normalizeItems l) with
    | .ok s => .list s
    | .error _ => .list (normalizeItems l)

/-- The `normalized[key] = _normalize_value(data[key])` loop body over the
pairs of a dict. -/
def normalizePairs : List (String × PyVal) → List (String × PyVal)
  | [] => []
  | p :: ps => (p.1, normalizeValue p.2) :: normalizePairs ps

/-- The `for item in data:` loop of the list branch: nested dicts and lists
are normalized, scalars are appended unchanged. -/
def normalizeItems : List PyVal → List PyVal
  | [] => []
  | x :: xs =>
    (if isNested x then normalizeValue x else x) :: normalizeItems xs

end

/-- `normalize`: each top-level value is normalized; the top-level keys keep
their insertion order. -/
def normalize (d : List (String × PyVal)) : List (String × PyVal) :=
  normalizePairs d

theorem lawfulBeq_comm {α : Type} [BEq α] [LawfulBEq α] (a b : α) :
    (a == b) = (b == a) := by
  by_cases h : a = b
  · subst h; rfl
  · rw [beq_eq_false_iff_ne.2 h, beq_eq_false_iff_ne.2 (Ne.symm h)]

mutual

theorem pyEq_symm : ∀ (a b : PyVal), pyEq a b = pyEq b a
  | .int a, .int b => lawfulBeq_comm a b
  | .str a, .str b => lawfulBeq_comm a b
  | .list a, .list b => pyEqList_symm a b
  | .dict a, .dict b => pyEqDict_symm a b
  | .int _, .str _ => rfl
  | .int _, .list _ => rfl
  | .int _, .dict _ => rfl
  | .str _, .int _ => rfl
  | .str _, .list _ => rfl
  | .str _, .dict _ => rfl
  | .list _, .int _ => rfl
  | .list _, .str _ => rfl
  | .list _, .dict _ => rfl
  | .dict _, .int _ => rfl
  | .dict _, .str _ => rfl
  | .dict _, .list _ => rfl

theorem pyEqList_symm : ∀ (l₁ l₂ : List PyVal), pyEqList l₁ l₂ = pyEqList l₂ l₁
  | [], [] => rfl
  | [], _ :: _ => rfl
  | _ :: _, [] => rfl
  | x :: xs, y :: ys => by
    simp only [pyEqList]
    rw [pyEq_symm x y, pyEqList_symm xs ys]

theorem pyEqDict_symm : ∀ (l₁ l₂ : List (String × PyVal)),
    pyEqDict l₁ l₂ = pyEqDict l₂ l₁
  | [], [] => rfl
  | [], _ :: _ => rfl
  | _ :: _, [] => rfl
  | p :: ps, q :: qs => by
    simp only [pyEqDict]
    rw [lawfulBeq_comm p.1 q.1, pyEq_symm p.2 q.2, pyEqDict_symm ps qs]

end

mutual

theorem pyLt_asymm : ∀ (a b : PyVal),
    pyLt a b = .ok true → pyLt b a = .ok true → False
  | .int a, .int b => fun h₁ h₂ => by
    simp only [pyLt, Except.ok.injEq, decide_eq_true_eq] at h₁ h₂
    omega
  | .str a, .str b => fun h₁ h₂ => by
    simp only [pyLt, Except.ok.injEq, strLtB, Bool.not_eq_true'] at h₁ h₂
    rcases strLe_total a b with h | h
    · exact absurd h (by simp [strLe, h₂])
    · exact absurd h (by simp [strLe, h₁])
  | .list a, .list b => fun h₁ h₂ => pyListLt_asymm a b h₁ h₂
  | .int _, .str _ => fun h _ => by simp [pyLt] at h
  | .int _, .list _ => fun h _ => by simp [pyLt] at h
  | .int _, .dict _ => fun h _ => by simp [pyLt] at h
  | .str _, .int _ => fun h _ => by simp [pyLt] at h
  | .str _, .list _ => fun h _ => by simp [pyLt] at h
  | .str _, .dict _ => fun h _ => by simp [pyLt] at h
  | .list _, .int _ => fun h _ => by simp [pyLt] at h
  | .list _, .str _ => fun h _ => by simp [pyLt] at h
  | .list _, .dict _ => fun h _ => by simp [pyLt] at h
  | .dict _, .int _ => fun h _ => by simp [pyLt] at h
  | .dict _, .str _ => fun h _ => by simp [pyLt] at h
  | .dict _, .list _ => fun h _ => by simp [pyLt] at h
  | .dict _, .dict _ => fun h _ => by simp [pyLt] at h

theorem pyListLt_asymm : ∀ (l₁ l₂ : List PyVal),
    pyListLt l₁ l₂ = .ok true → pyListLt l₂ l₁ = .ok true → False
  | [], [] => fun h _ => by simp [pyListLt] at h
  | [], _ :: _ => fun _ h => by simp [pyListLt] at h
  | _ :: _, [] => fun h _ => by simp [pyListLt] at h
  | x :: xs, y :: ys => fun h₁ h₂ => by
    simp only [pyListLt] at h₁ h₂
    by_cases he : pyEq x y = true
    · rw [if_pos he] at h₁
      rw [if_pos ((pyEq_symm y x).trans he)] at h₂
      exact pyListLt_asymm xs ys h₁ h₂
    · rw [if_neg he] at h₁
      rw [if_neg (fun hyx => he ((pyEq_symm x y).trans hyx))] at h₂
      exact pyLt_asymm x y h₁ h₂

end

/-- The comparison succeeds (no `TypeError`). -/
def pyLtOk (a b : PyVal) : Bool :=
  match pyLt a b with
  | .ok _ => true
  | .error _ => false

/-- `a ≤ b` in the output order: `b < a` did not evaluate to `True`. -/
def pyLe (a b : PyVal) : Prop := ¬(pyLt b a = Except.ok true)

/-- Every ordered pair of members compares without raising. -/
def allComparable (l : List PyVal) : Prop :=
  ∀ a ∈ l, ∀ b ∈ l, pyLtOk a b = true

theorem pyInsert_perm : ∀ {x : PyVal} {ys zs : List PyVal},
    pyInsert x ys = .ok zs → List.Perm zs (x :: ys) := by
  intro x ys
  induction ys with
  | nil =>
    intro zs h
    simp only [pyInsert, Except.ok.injEq] at h
    subst h
    exact List.Perm.refl _
  | cons y ys ih =>
    intro zs h
    simp only [pyInsert] at h
    split at h
    · cases h
    · injection h with h
      subst h
      exact List.Perm.refl _
    · split at h
      · cases h
      · rename_i r hr
        injection h with h
        subst h
        exact ((ih hr).cons y).trans (List.Perm.swap x y ys)

theorem pyInsert_ok : ∀ {x : PyVal} {ys : List PyVal},
    (∀ y ∈ ys, pyLtOk x y = true) → ∃ zs, pyInsert x ys = .ok zs := by
  intro x ys
  induction ys with
  | nil => exact fun _ => ⟨[x], rfl⟩
  | cons y ys ih =>
    intro hc
    have hxy : pyLtOk x y = true := hc y (List.mem_cons_self y ys)
    cases hlt : pyLt x y with
    | error e => simp [pyLtOk, hlt] at hxy
    | ok b =>
      cases b with
      | true => exact ⟨x :: y :: ys, by simp [pyInsert, hlt]⟩
      | false =>
        obtain ⟨zs, hz⟩ := ih (fun z hz => hc z (List.mem_cons_of_mem y hz))
        exact ⟨y :: zs, by simp [pyInsert, hlt, hz]⟩

theorem pyInsert_error : ∀ {x : PyVal} {ys : List PyVal} {e : Unit},
    pyInsert x ys = .error e → ∃ y ∈ ys, pyLtOk x y = false := by
  intro x ys
  induction ys with
  | nil => intro e h; cases h
  | cons y ys ih =>
    intro e h
    simp only [pyInsert] at h
    split at h
    · rename_i heq
      exact ⟨y, List.mem_cons_self y ys, by simp [pyLtOk, heq]⟩
    · cases h
    · split at h
      · rename_i hr
        injection h with h
        subst h
        obtain ⟨z, hz, hf⟩ := ih hr
        exact ⟨z, List.mem_cons_of_mem y hz, hf⟩
      · cases h

theorem pyInsert_shape : ∀ {x : PyVal} {ys zs : List PyVal},
    pyInsert x ys = .ok zs →
    zs = x :: ys ∨
      ∃ y ys' r, ys = y :: ys' ∧ zs = y :: r ∧ pyInsert x ys' = .ok r ∧
        pyLt x y = .ok false := by
  intro x ys zs h
  cases ys with
  | nil =>
    simp only [pyInsert, Except.ok.injEq] at h
    exact Or.inl h.symm
  | cons y ys =>
    simp only [pyInsert] at h
    split at h
    · cases h
    · injection h with h
      exact Or.inl h.symm
    · rename_i heq
      split at h
      · cases h
      · rename_i r hr
        injection h with h
        exact Or.inr ⟨y, ys, r, rfl, h.symm, hr, heq⟩

theorem pyInsert_chain : ∀ {x : PyVal} {ys zs : List PyVal},
    List.Chain' pyLe ys → pyInsert x ys = .ok zs → List.Chain' pyLe zs := by
  intro x ys
  induction ys with
  | nil =>
    intro zs _ h
    simp only [pyInsert, Except.ok.injEq] at h
    subst h
    simp
  | cons y ys ih =>
    intro zs hch h
    simp only [pyInsert] at h
    split at h
    · cases h
    · rename_i heq
      injection h with h
      subst h
      exact List.chain'_cons.2 ⟨fun hyx => pyLt_asymm x y heq hyx, hch⟩
    · rename_i heq
      split at h
      · cases h
      · rename_i r hr
        injection h with h
        subst h
        have hch' : List.Chain' pyLe r := ih hch.tail hr
        rcases pyInsert_shape hr with ht | ⟨z, ys', t, hys, hzs, _, _⟩
        · subst ht
          exact List.chain'_cons.2 ⟨fun hxy => by simp [heq] at hxy, hch'⟩
        · subst hys
          subst hzs
          exact List.chain'_cons.2 ⟨(List.chain'_cons.1 hch).1, hch'⟩

theorem pySortedAux_perm : ∀ {l acc s : List PyVal},
    pySortedAux acc l = .ok s → List.Perm s (acc ++ l) := by
  intro l
  induction l with
  | nil =>
    intro acc s h
    simp only [pySortedAux, Except.ok.injEq] at h
    subst h
    simp
  | cons x xs ih =>
    intro acc s h
    simp only [pySortedAux] at h
    split at h
    · cases h
    · rename_i acc' hins
      have h₁ : List.Perm s (acc' ++ xs) := ih h
      have h₂ : List.Perm (acc' ++ xs) ((x :: acc) ++ xs) :=
        (pyInsert_perm hins).append_right xs
      exact (h₁.trans h₂).trans (List.perm_middle).symm

theorem pySorted_perm {l s : List PyVal} (h : pySorted l = .ok s) :
    List.Perm s l :=
  pySortedAux_perm h

theorem pySortedAux_chain : ∀ {l acc s : List PyVal},
    List.Chain' pyLe acc → pySortedAux acc l = .ok s → List.Chain' pyLe s := by
  intro l
  induction l with
  | nil =>
    intro acc s hch h
    simp only [pySortedAux, Except.ok.injEq] at h
    subst h
    exact hch
  | cons x xs ih =>
    intro acc s hch h
    simp only [pySortedAux] at h
    split at h
    · cases h
    · rename_i acc' hins
      exact ih (pyInsert_chain hch hins) h

theorem pySorted_chain {l s : List PyVal} (h : pySorted l = .ok s) :
    List.Chain' pyLe s :=
  pySortedAux_chain (by simp) h

theorem pySortedAux_ok {l₀ : List PyVal} (hcomp : allComparable l₀) :
    ∀ {l : List PyVal}, ∀ {acc : List PyVal},
    (∀ x ∈ l, x ∈ l₀) → (∀ y ∈ acc, y ∈ l₀) →
    ∃ s, pySortedAux acc l = .ok s := by
  intro l
  induction l with
  | nil => exact fun _ _ => ⟨_, rfl⟩
  | cons x xs ih =>
    intro acc hl hacc
    have hts : ∀ y ∈ acc, pyLtOk x y = true :=
      fun y hy => hcomp x (hl x (List.mem_cons_self x xs)) y (hacc y hy)
    obtain ⟨acc', hins⟩ := pyInsert_ok hts
    have hacc' : ∀ y ∈ acc', y ∈ l₀ := by
      intro y hy
      rcases List.mem_cons.1 ((pyInsert_perm hins).mem_iff.1 hy) with h | h
      · exact h ▸ hl x (List.mem_cons_self x xs)
      · exact hacc y h
    obtain ⟨s, hs⟩ := ih (fun y hy => hl y (List.mem_cons_of_mem x hy)) hacc'
    exact ⟨s, by simp only [pySortedAux, hins, hs]⟩

theorem pySorted_ok {l : List PyVal} (hcomp : allComparable l) :
    ∃ s, pySorted l = .ok s :=
  pySortedAux_ok hcomp (fun _ h => h) (fun _ h => by cases h)

theorem pySortedAux_error : ∀ {l acc : List PyVal} {e : Unit},
    pySortedAux acc l = .error e →
    ∃ a b, a ∈ l ∧ (b ∈ acc ∨ b ∈ l) ∧ pyLtOk a b = false := by
  intro l
  induction l with
  | nil => intro acc e h; cases h
  | cons x xs ih =>
    intro acc e h
    simp only [pySortedAux] at h
    split at h
    · rename_i heq
      obtain ⟨y, hy, hf⟩ := pyInsert_error heq
      exact ⟨x, y, List.mem_cons_self x xs, Or.inl hy, hf⟩
    · rename_i acc' hins
      obtain ⟨a, b, ha, hb, hf⟩ := ih h
      refine ⟨a, b, List.mem_cons_of_mem x ha, ?_, hf⟩
      rcases hb with hb | hb
      · rcases List.mem_cons.1 ((pyInsert_perm hins).mem_iff.1 hb) with h' | h'
        · exact Or.inr (h' ▸ List.mem_cons_self x xs)
        · exact Or.inl h'
      · exact Or.inr (List.mem_cons_of_mem x hb)

theorem pySorted_error {l : List PyVal} {e : Unit}
    (h : pySorted l = .error e) : ¬ allComparable l := by
  intro hc
  obtain ⟨a, b, ha, hb, hf⟩ := pySortedAux_error h
  have hb' : b ∈ l := by
    rcases hb with hb | hb
    · cases hb
    · exact hb
  rw [hc a ha b hb'] at hf
  cases hf

mutual

/-- Every dict nested anywhere in the value has code-point-sorted keys. -/
def KeysSortedVal : PyVal → Prop
  | .int _ => True
  | .str _ => True
  | .list l => KeysSortedList l
  | .dict d => List.Sorted strLe (d.map Prod.fst) ∧ KeysSortedPairs d

def KeysSortedList : List PyVal → Prop
  | [] => True
  | x :: xs => KeysSortedVal x ∧ KeysSortedList xs

def KeysSortedPairs : List (String × PyVal) → Prop
  | [] => True
  | p :: ps => KeysSortedVal p.2 ∧ KeysSortedPairs ps

end

theorem keysSortedList_iff : ∀ {l : List PyVal},
    KeysSortedList l ↔ ∀ x ∈ l, KeysSortedVal x := by
  intro l
  induction l with
  | nil => simp [KeysSortedList]
  | cons x xs ih =>
    simp only [KeysSortedList, ih, List.mem_cons]
    constructor
    · rintro ⟨h₁, h₂⟩ y (rfl | hy)
      · exact h₁
      · exact h₂ y hy
    · exact fun h => ⟨h x (Or.inl rfl), fun y hy => h y (Or.inr hy)⟩

theorem keysSortedPairs_iff : ∀ {d : List (String × PyVal)},
    KeysSortedPairs d ↔ ∀ p ∈ d, KeysSortedVal p.2 := by
  intro d
  induction d with
  | nil => simp [KeysSortedPairs]
  | cons p ps ih =>
    simp only [KeysSortedPairs, ih, List.mem_cons]
    constructor
    · rintro ⟨h₁, h₂⟩ q (rfl | hq)
      · exact h₁
      · exact h₂ q hq
    · exact fun h => ⟨h p (Or.inl rfl), fun q hq => h q (Or.inr hq)⟩

theorem sorted_map_fst {β : Type} {l : List (String × β)}
    (h : List.Sorted keyLe l) : List.Sorted strLe (l.map Prod.fst) :=
  List.pairwise_map.2 h

mutual

theorem normalizeValue_keysSorted : ∀ (v : PyVal),
    KeysSortedVal (normalizeValue v)
  | .int _ => trivial
  | .str _ => trivial
  | .dict d => by
    have hpairs := normalizePairs_keysSorted d
    simp only [normalizeValue, KeysSortedVal]
    refine ⟨sorted_map_fst (keySort_sorted _), ?_⟩
    rw [keysSortedPairs_iff] at hpairs ⊢
    intro p hp
    exact hpairs p ((keySort_perm _).mem_iff.1 hp)
  | .list l => by
    have hitems := normalizeItems_keysSorted l
    simp only [normalizeValue]
    split
    · rename_i s hs
      simp only [KeysSortedVal]
      rw [keysSortedList_iff] at hitems ⊢
      intro x hx
      exact hitems x ((pySorted_perm hs).mem_iff.1 hx)
    · simp only [KeysSortedVal]
      exact hitems

theorem normalizePairs_keysSorted : ∀ (d : List (String × PyVal)),
    KeysSortedPairs (normalizePairs d)
  | [] => trivial
  | p :: ps => ⟨normalizeValue_keysSorted p.2, normalizePairs_keysSorted ps⟩

theorem normalizeItems_keysSorted : ∀ (l : List PyVal),
    KeysSortedList (normalizeItems l)
  | [] => trivial
  | x :: xs => by
    refine ⟨?_, normalizeItems_keysSorted xs⟩
    cases x with
    | int n => exact trivial
    | str s => exact trivial
    | list l => exact normalizeValue_keysSorted (.list l)
    | dict d => exact normalizeValue_keysSorted (.dict d)

end

instance (l : List PyVal) : Decidable (allComparable l) :=
  inferInstanceAs (Decidable (∀ a ∈ l, ∀ b ∈ l, pyLtOk a b = true))

/-- C9: the canonicalizer `normalize` / `_normalize_value` is a pure
function on the modelled values; every dict anywhere in its result has
code-point-sorted keys; a list's elements are always recursively
normalized (the result is a permutation of `normalizeItems`, the identity
permutation in the fallback case); when the normalized elements are
mutually comparable the list is sorted — a permutation of the normalized
items that is chained in the Python order; and when the sort raises
`TypeError` the normalized elements were not mutually comparable and the
list is returned in its post-normalization, unsorted element order instead
of propagating the error. -/
theorem C9_canonicalizer :
    (∀ (d : List (String × PyVal)), ∀ p ∈ normalize d, KeysSortedVal p.2) ∧
    (∀ v : PyVal, KeysSortedVal (normalizeValue v)) ∧
    (∀ l : List PyVal, ∃ s, normalizeValue (.list l) = .list s ∧
      List.Perm s (normalizeItems l)) ∧
    (∀ l : List PyVal, allComparable (normalizeItems l) →
      ∃ s, normalizeValue (.list l) = .list s ∧
        List.Perm s (normalizeItems l) ∧ List.Chain' pyLe s) ∧
    (∀ (l : List PyVal) (e : Unit), pySorted (normalizeItems l) = .error e →
      normalizeValue (.list l) = .list (normalizeItems l) ∧
      ¬ allComparable (normalizeItems l)) := by
  refine ⟨?_, normalizeValue_keysSorted, ?_, ?_, ?_⟩
  · intro d p hp
    have h := normalizePairs_keysSorted d
    rw [keysSortedPairs_iff] at h
    exact h p hp
  · intro l
    cases hs : pySorted (normalizeItems l) with
    | ok s => exact ⟨s, by simp [normalizeValue, hs], pySorted_perm hs⟩
    | error e =>
      exact ⟨normalizeItems l, by simp [normalizeValue, hs], List.Perm.refl _⟩
  · intro l hc
    obtain ⟨s, hs⟩ := pySorted_ok hc
    exact ⟨s, by simp [normalizeValue, hs], pySorted_perm hs, pySorted_chain hs⟩
  · intro l e he
    exact ⟨by simp [normalizeValue, he], pySorted_error he⟩

/-- C9 witness: `["b", "a"]` has mutually comparable items and is sorted to
a chained permutation; `[0, "a"]` raises on the `int`/`str` comparison, is
returned in its post-normalization order, and is indeed not mutually
comparable. -/
theorem C9_canonicalizer_witness :
    (allComparable (normalizeItems [PyVal.str "b", PyVal.str "a"]) ∧
      ∃ s, normalizeValue (.list [PyVal.str "b", PyVal.str "a"]) = .list s ∧
        List.Perm s (normalizeItems [PyVal.str "b", PyVal.str "a"]) ∧
        List.Chain' pyLe s) ∧
    (pySorted (normalizeItems [PyVal.int 0, PyVal.str "a"]) = .error () ∧
      normalizeValue (.list [PyVal.int 0, PyVal.str "a"]) =
        .list (normalizeItems [PyVal.int 0, PyVal.str "a"]) ∧
      ¬ allComparable (normalizeItems [PyVal.int 0, PyVal.str "a"])) :=
  ⟨⟨by decide, C9_canonicalizer.2.2.2.1 _ (by decide)⟩,
   ⟨rfl,
    (C9_canonicalizer.2.2.2.2 [PyVal.int 0, PyVal.str "a"] () rfl).1,
    (C9_canonicalizer.2.2.2.2 [PyVal.int 0, PyVal.str "a"] () rfl).2⟩⟩

end Networkd
